import Mathlib

/-!
Verification of the picobench micro-benchmarking library
(`include/picobench/picobench.hpp`, v0.01).

The development shallowly embeds the library's core: the measurement
`state` with its range-for iteration protocol, the benchmark registry,
and `runner::run_benchmarks` (baseline resolution, randomized expansion
of benchmarks into measurement states, cross-benchmark interleaved
execution, and report aggregation).

Modelling conventions:
 * machine integers are `Int`/`Nat` (no overflow is reachable in any
   statement proved here);
 * the monotonic clock is an explicit `Nat` nanosecond counter threaded
   through execution, exactly like the `fake_time` test double shipped in
   the header (`the_time.now`, advanced by the benchmark body);
 * a benchmark callable is modelled as a procedure that drives the
   range-for protocol of its `state` argument with a loop body advancing
   the clock by a fixed `k` nanoseconds per iteration (the shape of the
   callables in the header's own tests, and the shape the spec's
   clock-collaborator scenarios prescribe);
 * `std::minstd_rand` is embedded by its defining linear congruence;
 * C++ integer division (which truncates toward zero) is `Int.tdiv`.
-/

namespace Picobench

/-! ### std::minstd_rand -/

/-- Modulus of `std::minstd_rand`: 2^31 - 1. -/
def lcgM : Nat := 2147483647

/-- Multiplier of `std::minstd_rand`. -/
def lcgA : Nat := 48271

/-- `linear_congruential_engine::seed` with increment 0: a seed value
congruent to 0 mod m is replaced by 1, otherwise reduced mod m. -/
def lcgInit (value : Nat) : Nat :=
  if value % lcgM = 0 then 1 else value % lcgM

/-- One call of `rnd()`: advance the engine state and return it. -/
def lcgNext (x : Nat) : Nat := lcgA * x % lcgM

/-! ### class state -/

/-- `picobench::state`: target iteration count `_iterations` (C++ `int`),
recorded `_duration_ns` (C++ `int64_t`, zero-initialized), and the
`_start` timestamp of the running timer. -/
structure state where
  iterations : Int
  duration_ns : Int
  start : Nat
deriving Repr, DecidableEq, Inhabited

/-- `state::state(int num_iterations)`: duration is zero-initialized and
the start timestamp is default-constructed (epoch). -/
def state.fresh (num_iterations : Int) : state :=
  ⟨num_iterations, 0, 0⟩

/-- `state::start_timer`: `_start = high_res_clock::now()`. -/
def state.start_timer (clock : Nat) (s : state) : state :=
  { s with start := clock }

/-- `state::stop_timer`: `_duration_ns = now() - _start` in nanoseconds. -/
def state.stop_timer (clock : Nat) (s : state) : state :=
  { s with duration_ns := (clock : Int) - (s.start : Int) }

/-- The desugared `for (auto _ : state)` loop, after `begin()` has produced
an iterator whose `_counter` starts at `iterations` (a nonnegative count
here, embedded as `Nat`; the C++ counter is an `int` that starts at
`_iterations` and is only ever decremented while nonzero).

Arguments: loop body as a clock transformer, remaining counter, current
clock, the state. Returns (final clock, final state, number of body
executions, number of `stop_timer` calls).

 * counter `0`: `iterator::operator!=` sees a zero `_counter`, calls
   `_state->stop_timer()` and reports the loop is over;
 * counter `n+1`: `operator!=` reports true, the body runs once, and
   `operator++` decrements the counter. -/
def driveFor (body : Nat → Nat) : Nat → Nat → state → Nat × state × Nat × Nat
  | 0, clock, s => (clock, s.stop_timer clock, 0, 1)
  | n + 1, clock, s =>
      let clock2 := body clock
      let r := driveFor body n clock2 s
      (r.1, r.2.1, r.2.2.1 + 1, r.2.2.2)

/-- A full range-based-for execution over a `state`: `begin()` starts the
timer and captures `iterations` as the iterator counter, then the loop of
`driveFor` runs. -/
def runRangeFor (body : Nat → Nat) (clock : Nat) (s : state) :
    Nat × state × Nat × Nat :=
  let s1 := s.start_timer clock
  driveFor body s1.iterations.toNat clock s1

/-- A benchmark callable, modelled as driving the protocol with a body
that advances the clock by `k` nanoseconds per iteration: returns the
clock and the state after the callable returns. -/
def execState (k : Nat) (clock : Nat) (s : state) : Nat × state :=
  let r := runRangeFor (fun c => c + k) clock s
  (r.1, r.2.1)

/-! ### class benchmark / benchmark_impl -/

/-- `picobench::benchmark_impl`: registration record plus run-time state.
`samples = 0` means "use the runner default". The callable `_proc` is
represented by its per-iteration clock advance `k` (see `execState`).
`states` is `_states`, `istate` is the `_istate` cursor as an index. -/
structure benchmark where
  name : String
  baseline : Bool
  state_iterations : List Int
  samples : Int
  k : Nat
  states : List state
  istate : Nat
deriving Repr, DecidableEq, Inhabited

/-- Dummy benchmark used as the `getD` default (never selected in a
well-formed run). -/
def benchmark.dummy : benchmark := ⟨"", false, [], 0, 0, [], 0⟩

/-- A registry suite: name (the `const char*` key, null for the default
suite) and its registration-ordered benchmarks. -/
structure suite where
  name : Option String
  benchmarks : List benchmark
deriving Repr, DecidableEq, Inhabited

/-! ### runner defaults -/

/-- `runner::runner()` default iterations-per-state list. -/
def default_state_iterations : List Int := [8, 64, 512, 4096, 8196]

/-- `runner::runner()` default sample count. -/
def default_samples : Int := 1

/-- Effective iteration list of a benchmark: its own
`_state_iterations` unless empty, in which case the runner default. -/
def effIters (dsi : List Int) (b : benchmark) : List Int :=
  if b.state_iterations.isEmpty then dsi else b.state_iterations

/-- Effective sample count of a benchmark: the runner default when the
descriptor's `_samples` is 0 (the code writes this back into the
descriptor). -/
def effSamples (ds : Int) (b : benchmark) : Int :=
  if b.samples = 0 then ds else b.samples

/-! ### run_benchmarks, phase 1: baseline resolution -/

/-- Per-suite baseline resolution in `run_benchmarks`: if no benchmark of
a non-empty suite is flagged `_baseline`, the front one gets the flag. -/
def resolveBaseline (s : suite) : suite :=
  if s.benchmarks.any (fun b => b.baseline) then s
  else
    match s.benchmarks with
    | [] => s
    | b :: bs => { s with benchmarks := { b with baseline := true } :: bs }

/-! ### run_benchmarks, phase 2: expansion with randomized placement -/

/-- One iteration of the inner expansion loop: draw `rnd()`, insert a
fresh state with the given iteration count into the benchmark's own state
vector at position `rnd() % (size + 1)`. Returns the new engine state and
vector. -/
def insertSample (rng : Nat) (states : List state) (iters : Int) :
    Nat × List state :=
  let r := lcgNext rng
  (r, states.insertIdx (r % (states.length + 1)) (state.fresh iters))

/-- `for (int i = 0; i < _samples; ++i)`: insert `n` fresh states for one
iteration count. -/
def insertSamples (iters : Int) : Nat → Nat × List state → Nat × List state
  | 0, rs => rs
  | n + 1, rs => insertSamples iters n (insertSample rs.1 rs.2 iters)

/-- Initialization of one benchmark in `run_benchmarks`: resolve the
effective sample count (writing it back), generate `samples` states per
configured iteration count at random positions of the benchmark's own
state vector (which is *not* cleared first), and reset the cursor. -/
def initBenchmark (dsi : List Int) (ds : Int) (rng : Nat) (b : benchmark) :
    Nat × benchmark :=
  let smp := effSamples ds b
  let si := effIters dsi b
  let p := si.foldl (fun (p : Nat × List state) iters =>
    insertSamples iters smp.toNat p) (rng, b.states)
  (p.1, { b with samples := smp, states := p.2, istate := 0 })

/-- Initialization threaded over a suite's benchmarks in registration
order, passing the random engine along. -/
def initBenchmarks (dsi : List Int) (ds : Int) :
    Nat → List benchmark → Nat × List benchmark
  | rng, [] => (rng, [])
  | rng, b :: bs =>
      let p := initBenchmark dsi ds rng b
      let q := initBenchmarks dsi ds p.1 bs
      (q.1, p.2 :: q.2)

/-- Initialization threaded over all suites in registry order. -/
def initSuites (dsi : List Int) (ds : Int) :
    Nat → List suite → Nat × List suite
  | rng, [] => (rng, [])
  | rng, s :: ss =>
      let p := initBenchmarks dsi ds rng s.benchmarks
      let q := initSuites dsi ds p.1 ss
      (q.1, { s with benchmarks := p.2 } :: q.2)

/-- The flat `std::vector<benchmark_impl*> benchmarks` built by
`run_benchmarks`: all suites' benchmarks in registry order. -/
def flatBenchmarks (reg : List suite) : List benchmark :=
  (reg.map (fun s => s.benchmarks)).flatten

/-- Write a flat benchmark list back into the suite structure it was
flattened from (the C++ mutates the registry through pointers; here the
registry is rebuilt shape-for-shape). -/
def unflatten : List suite → List benchmark → List suite
  | [], _ => []
  | s :: ss, flat =>
      { s with benchmarks := flat.take s.benchmarks.length } ::
        unflatten ss (flat.drop s.benchmarks.length)

/-! ### run_benchmarks, phase 3: cross-benchmark interleaving -/

/-- State of the scheduling loop: the random engine, the clock, the flat
benchmark list (mutated in place), the working set of indices of not yet
fully executed benchmarks, and the trace of executed units, each recorded
as (flat benchmark index, target iteration count). -/
structure sched where
  rng : Nat
  clock : Nat
  benchmarks : List benchmark
  working : List Nat
  trace : List (Nat × Int)
deriving Repr, DecidableEq, Inhabited

/-- One iteration of the scheduling loop: pick position
`rnd() % benchmarks.size()` of the working set, run that benchmark's
callable on its state at the cursor, advance the cursor, and drop the
benchmark from the working set once the cursor reaches the end.
(The guard `istate < states.length` cannot fail when every benchmark has
at least one pending state; on a benchmark with none the C++ would
dereference an end iterator, while this model just drops it.) -/
def schedStep (st : sched) : sched :=
  let r := lcgNext st.rng
  let pos := r % st.working.length
  let j := st.working.getD pos 0
  let b := st.benchmarks.getD j benchmark.dummy
  if b.istate < b.states.length then
    let s0 := b.states.getD b.istate default
    let p := execState b.k st.clock s0
    let b2 : benchmark :=
      { b with states := b.states.set b.istate p.2, istate := b.istate + 1 }
    let working2 :=
      if b2.istate = b2.states.length then st.working.eraseIdx pos
      else st.working
    ⟨r, p.1, st.benchmarks.set j b2, working2, st.trace ++ [(j, s0.iterations)]⟩
  else
    ⟨r, st.clock, st.benchmarks, st.working.eraseIdx pos, st.trace⟩

/-- `while (!benchmarks.empty())`, driven by a fuel argument; the fuel
supplied by `run_benchmarks` (see `schedMeasure`) is proved sufficient, so
the loop always ends with an empty working set. -/
def schedLoop : Nat → sched → sched
  | 0, st => st
  | fuel + 1, st =>
      if st.working.isEmpty then st else schedLoop fuel (schedStep st)

/-- Pending-state count over a whole benchmark list. -/
def remSum (bs : List benchmark) : Nat :=
  (bs.map (fun b => b.states.length - b.istate)).sum

/-- Loop variant of the scheduling loop: total pending states plus the
size of the working set. -/
def schedMeasure (st : sched) : Nat :=
  remSum st.benchmarks + st.working.length

/-! ### run_benchmarks, phase 4: report generation -/

/-- `report::benchmark_problem_space`. -/
structure benchmark_problem_space where
  dimension : Int
  samples : Nat
  total_time_ns : Int
deriving Repr, DecidableEq, Inhabited

/-- `report::benchmark`. -/
structure report_benchmark where
  name : String
  is_baseline : Bool
  data : List benchmark_problem_space
deriving Repr, DecidableEq, Inhabited

/-- `report::suite`. -/
structure report_suite where
  name : Option String
  benchmarks : List report_benchmark
deriving Repr, DecidableEq, Inhabited

/-- `picobench::report`. -/
structure report where
  suites : List report_suite
deriving Repr, DecidableEq, Inhabited

/-- The inner aggregation loop body: one executed state is added into
every data entry whose dimension equals its iteration count. -/
def accumulate (data : List benchmark_problem_space) (s : state) :
    List benchmark_problem_space :=
  data.map (fun d =>
    if s.iterations = d.dimension then
      { d with total_time_ns := d.total_time_ns + s.duration_ns,
               samples := d.samples + 1 }
    else d)

/-- Report generation for one benchmark: one zero entry per configured
iteration count, accumulation of all states, then the per-entry average
(C++ `int64_t` division, truncating toward zero). -/
def genReportBenchmark (dsi : List Int) (b : benchmark) : report_benchmark :=
  let si := effIters dsi b
  let data0 := si.map (fun d => benchmark_problem_space.mk d 0 0)
  let data1 := b.states.foldl accumulate data0
  let data2 := data1.map (fun d =>
    { d with total_time_ns := d.total_time_ns.tdiv (d.samples : Int) })
  ⟨b.name, b.baseline, data2⟩

/-- Report generation over the whole (already executed) registry. -/
def generateReport (dsi : List Int) (reg : List suite) : report :=
  ⟨reg.map (fun s => ⟨s.name, s.benchmarks.map (genReportBenchmark dsi)⟩)⟩

/-! ### run_benchmarks itself -/

/-- Conversion of the C++ `int random_seed` to the unsigned engine seed
type (`uint_fast32_t`, 64 bits wide on the reference LP64 platform). -/
def toUSeed (seed : Int) : Nat := (seed % (2 : Int) ^ 64).toNat

/-- Seed selection at the top of `run_benchmarks`: exactly the value `-1`
(also the default argument) is replaced by a draw from
`std::random_device`, modelled by the explicit `device` input. -/
def effectiveSeed (seed : Int) (device : Nat) : Nat :=
  if seed = -1 then device else toUSeed seed

/-- Everything produced by one `run_benchmarks` call: the mutated
registry, the report, the execution trace (ordered list of executed
(flat benchmark index, target iterations) units) and the final clock. -/
structure runResult where
  registry : List suite
  rpt : report
  trace : List (Nat × Int)
  clock : Nat
deriving Repr, DecidableEq, Inhabited

/-- `runner::run_benchmarks(random_seed)` over a registry snapshot:
baseline resolution, randomized expansion, interleaved execution,
report generation. `device` models `std::random_device` and `clock0` the
clock value when the run starts. -/
def run_benchmarks (dsi : List Int) (ds : Int) (reg : List suite)
    (seed : Int) (device : Nat) (clock0 : Nat) : runResult :=
  let rng0 := lcgInit (effectiveSeed seed device)
  let reg1 := reg.map resolveBaseline
  let p := initSuites dsi ds rng0 reg1
  let flat := flatBenchmarks p.2
  let st0 : sched := ⟨p.1, clock0, flat, List.range flat.length, []⟩
  let stF := schedLoop (schedMeasure st0) st0
  let reg3 := unflatten p.2 stF.benchmarks
  ⟨reg3, generateReport dsi reg3, stF.trace, stF.clock⟩

/-- Sub-trace of one flat benchmark index: the ordered iteration counts
of the units executed for that benchmark. -/
def traceFor (j : Nat) (tr : List (Nat × Int)) : List Int :=
  (tr.filter (fun e => e.1 == j)).map (fun e => e.2)

/-- Number of states with a given target iteration count. -/
def countIters (w : Int) (sts : List state) : Nat :=
  sts.countP (fun st => st.iterations == w)

/-- Access to the benchmark at suite index `si`, benchmark index `bi`. -/
def benchAt (reg : List suite) (si bi : Nat) : benchmark :=
  (reg.getD si default).benchmarks.getD bi benchmark.dummy

/-- Flat index of the benchmark at `(si, bi)`: benchmarks of earlier
suites come first. -/
def suiteOffset (reg : List suite) (si : Nat) : Nat :=
  ((reg.take si).map (fun s => s.benchmarks.length)).sum

/-! ### report::to_text -/

/-- The baseline column of one detailed-view row: the placeholder for the
baseline itself, the ratio of the row's total time to the baseline's
(rendered as a double from this pair), or the unknown marker when the
group has no baseline. -/
inductive baseline_cell
  | dash
  | rel (num den : Int)
  | unknown
deriving Repr, DecidableEq

/-- One problem-space entry of `report::get_problem_space_view`. -/
structure problem_space_benchmark where
  name : String
  is_baseline : Bool
  total_time_ns : Int
deriving Repr, DecidableEq, Inhabited

/-- Insertion into the `std::map<int, vector<problem_space_benchmark>>`
of `get_problem_space_view`: keys kept in ascending order, values
appended in traversal order. -/
def psvInsert (key : Int) (v : problem_space_benchmark) :
    List (Int × List problem_space_benchmark) →
    List (Int × List problem_space_benchmark)
  | [] => [(key, [v])]
  | (d, vs) :: rest =>
      if key < d then (key, [v]) :: (d, vs) :: rest
      else if key = d then (d, vs ++ [v]) :: rest
      else (d, vs) :: psvInsert key v rest

/-- `report::get_problem_space_view`. -/
def get_problem_space_view (s : report_suite) :
    List (Int × List problem_space_benchmark) :=
  s.benchmarks.foldl (fun acc bm =>
    bm.data.foldl (fun acc d =>
      psvInsert d.dimension ⟨bm.name, bm.is_baseline, d.total_time_ns⟩ acc)
      acc) []

/-- One data row printed by `report::to_text` (the columns before their
textual formatting; `ns_per_op` is the C++ integer division
`total_time_ns / dimension`). -/
structure text_row where
  name : String
  is_baseline : Bool
  dim : Int
  total_time_ns : Int
  ns_per_op : Int
  base : baseline_cell
deriving Repr, DecidableEq

/-- The benchmark rows of the detailed text view for one suite: grouped
by problem-space entry; within one group the first benchmark flagged as
baseline (if any) is the reference of the baseline column. -/
def to_text_suite_rows (s : report_suite) : List text_row :=
  (get_problem_space_view s).map (fun ps =>
    let base := ps.2.find? (fun bm => bm.is_baseline)
    ps.2.map (fun bm =>
      ⟨bm.name, bm.is_baseline, ps.1, bm.total_time_ns,
        bm.total_time_ns.tdiv ps.1,
        match base with
        | none => baseline_cell.unknown
        | some bl =>
            if bl = bm then baseline_cell.dash
            else baseline_cell.rel bm.total_time_ns bl.total_time_ns⟩)) |>.flatten

/-- All benchmark rows produced by `report::to_text`. -/
def to_text_rows (r : report) : List text_row :=
  (r.suites.map to_text_suite_rows).flatten

/-! ### Concrete registries used for witnesses and counterexamples -/

/-- Benchmark "A" of the spec's §8 scenario: workload sizes {10}, default
sample count, callable advancing the clock 100 ns per iteration. -/
def bmA : benchmark := ⟨"A", false, [10], 0, 100, [], 0⟩

/-- Benchmark "B" of the spec's §8 scenario: 300 ns per iteration. -/
def bmB : benchmark := ⟨"B", false, [10], 0, 300, [], 0⟩

/-- The one-suite registry of the spec's §8 scenario. -/
def regAB : List suite := [⟨some "S", [bmA, bmB]⟩]

/-- A suite whose user explicitly marked two benchmarks as baseline. -/
def twoBaselineSuite : suite :=
  ⟨some "S", [⟨"a", true, [2], 0, 0, [], 0⟩, ⟨"b", true, [2], 0, 0, [], 0⟩]⟩

/-- A benchmark with two workload sizes and two samples. -/
def bmC : benchmark := ⟨"C", false, [2, 3], 2, 7, [], 0⟩

/-- A benchmark whose workload-size list repeats the value 2. -/
def bmD : benchmark := ⟨"D", false, [2, 2, 3], 1, 5, [], 0⟩

/-- One-benchmark registry around `bmC`. -/
def regC : List suite := [⟨none, [bmC]⟩]

/-- One-benchmark registry around `bmD`. -/
def regD : List suite := [⟨none, [bmD]⟩]

/-! ### Projections and invariants used to reason about the run -/

/-- Benchmark at index `j` of a flat benchmark list. -/
def bAt (bs : List benchmark) (j : Nat) : benchmark :=
  bs.getD j benchmark.dummy

/-- The descriptor fields of a benchmark that the scheduling loop never
touches. -/
def bshell (b : benchmark) : String × Bool × List Int × Int × Nat :=
  (b.name, b.baseline, b.state_iterations, b.samples, b.k)

/-- The benchmark fields that baseline resolution never touches
(everything except the baseline flag). -/
def bcore (b : benchmark) :
    String × List Int × Int × Nat × List state × Nat :=
  (b.name, b.state_iterations, b.samples, b.k, b.states, b.istate)

/-- Per-suite benchmark counts of a registry. -/
def lenMap (reg : List suite) : List Nat :=
  reg.map (fun s => s.benchmarks.length)

/-- The benchmark data that drives scheduling decisions and the trace:
everything except the recorded durations and start stamps. Two scheduler
states agreeing pointwise on this projection (plus engine, working set
and trace) schedule identically. -/
def bsim (b : benchmark) :
    String × Bool × List Int × Int × Nat × Nat × List Int :=
  (b.name, b.baseline, b.state_iterations, b.samples, b.k, b.istate,
    b.states.map state.iterations)

/-- Invariant of the scheduling loop, relative to the flat benchmark list
`B0` the loop started from: descriptor shells and state iteration counts
are preserved; cursors never pass the end; benchmarks outside the working
set are exactly the finished ones; the trace so far lists, per benchmark,
exactly the iteration counts of the states before its cursor, in order;
and every state before a cursor carries the duration its benchmark's
callable records. -/
structure SchedInv (B0 : List benchmark) (st : sched) : Prop where
  len_eq : st.benchmarks.length = B0.length
  shell_eq : ∀ j, bshell (bAt st.benchmarks j) = bshell (bAt B0 j)
  iters_eq : ∀ j, (bAt st.benchmarks j).states.map state.iterations =
      (bAt B0 j).states.map state.iterations
  cursor_le : ∀ j,
      (bAt st.benchmarks j).istate ≤ (bAt st.benchmarks j).states.length
  working_lt : ∀ j ∈ st.working, j < B0.length
  done_off : ∀ j, j < B0.length → j ∉ st.working →
      (bAt st.benchmarks j).istate = (bAt st.benchmarks j).states.length
  trace_pre : ∀ j, traceFor j st.trace =
      ((bAt st.benchmarks j).states.take
        (bAt st.benchmarks j).istate).map state.iterations
  dur_pre : ∀ j i, i < (bAt st.benchmarks j).istate →
      ((bAt st.benchmarks j).states.getD i default).duration_ns =
        ((((bAt st.benchmarks j).states.getD i default).iterations.toNat *
          (bAt st.benchmarks j).k : Nat) : Int)

end Picobench

/-! ## Theorems -/

namespace Picobench

/-! ### The iteration protocol (claim C2) -/

/-- The loop of `driveFor` finishes with the clock advanced by `n`
applications of the body, stops the timer exactly once (at that final
clock), and runs the body exactly `n` times. -/
theorem driveFor_eq (body : Nat → Nat) :
    ∀ (n clock : Nat) (s : state),
      driveFor body n clock s =
        (body^[n] clock, s.stop_timer (body^[n] clock), n, 1)
  | 0, clock, s => rfl
  | n + 1, clock, s => by
      simp only [driveFor, driveFor_eq body n (body clock) s,
        Function.iterate_succ_apply]

/-- Iterating a fixed advance of `k` nanoseconds. -/
theorem iterate_add_const (k : Nat) :
    ∀ (n c : Nat), (fun x => x + k)^[n] c = c + n * k
  | 0, c => by simp
  | n + 1, c => by
      rw [Function.iterate_succ_apply, iterate_add_const k n (c + k)]
      ring

/-- Claim C2: driving the range-based-for protocol of a state constructed
with `target_iterations = n > 0` runs the loop body exactly `n` times,
starts the timer in `begin()` (the recorded start stamp is the clock
before the first body execution), stops it exactly once, and records as
`duration_ns` exactly the clock advance spanned by the `n` body
executions — the start/stop calls themselves advance nothing. -/
theorem range_for_protocol (body : Nat → Nat) (n : Nat) (h : 0 < n)
    (clock : Nat) (d0 : Int) (t0 : Nat) :
    runRangeFor body clock ⟨(n : Int), d0, t0⟩ =
      (body^[n] clock,
       ⟨(n : Int), (body^[n] clock : Int) - (clock : Int), clock⟩, n, 1) := by
  have hn : ((n : Int)).toNat = n := Int.toNat_natCast n
  simp only [runRangeFor, state.start_timer, hn, driveFor_eq,
    state.stop_timer]

/-- Witness for C2: a state with 3 target iterations and a body advancing
the clock 5 ns per iteration, started at clock 2: the body runs 3 times,
the timer stops once, and the recorded duration is 15 ns. -/
theorem range_for_protocol_witness :
    0 < 3 ∧
      runRangeFor (fun c => c + 5) 2 ⟨3, 7, 9⟩ = (17, ⟨3, 15, 2⟩, 3, 1) :=
  ⟨by decide, (range_for_protocol (fun c => c + 5) 3 (by decide) 2 7 9).trans
    (by decide)⟩

/-! ### Baseline resolution (claim C4) -/

/-- Counterexample to C4 as stated: on a suite where the user explicitly
marked both benchmarks as baseline, `run_benchmarks` leaves both flags
set, so the suite does not end up with exactly one baseline. -/
theorem two_baselines_counterexample :
    ¬ (((run_benchmarks default_state_iterations default_samples
          [twoBaselineSuite] 0 0 0).registry.getD 0 default).benchmarks.countP
        (fun b => b.baseline) = 1) := by decide

/-- Claim C4 as amended: after baseline resolution, every non-empty suite
has at least one baseline; when no benchmark of the suite was user-marked
the first-registered one becomes baseline and the suite has exactly one;
when at least one was user-marked the suite is left unchanged (so a suite
with several user-marked baselines keeps them all). -/
theorem resolveBaseline_spec (s : suite) (h : s.benchmarks ≠ []) :
    (resolveBaseline s).benchmarks.any (fun b => b.baseline) = true ∧
      (s.benchmarks.any (fun b => b.baseline) = true →
        resolveBaseline s = s) ∧
      (s.benchmarks.any (fun b => b.baseline) = false →
        (resolveBaseline s).benchmarks.countP (fun b => b.baseline) = 1) := by
  rcases hb : s.benchmarks.any (fun b => b.baseline) with _ | _
  · refine ⟨?_, by simp, fun _ => ?_⟩
    · unfold resolveBaseline
      rw [hb]
      simp only [Bool.false_eq_true, if_false]
      cases hbm : s.benchmarks with
      | nil => exact absurd hbm h
      | cons b bs => simp
    · unfold resolveBaseline
      rw [hb]
      simp only [Bool.false_eq_true, if_false]
      cases hbm : s.benchmarks with
      | nil => exact absurd hbm h
      | cons b bs =>
          have hall : ∀ x ∈ bs, ¬ (x.baseline = true) := by
            intro x hx
            have := List.any_eq_false.mp (by rw [hbm] at hb; exact hb)
            exact fun hxb => by
              have := this x (List.mem_cons_of_mem b hx)
              simp [hxb] at this
          simp only [List.countP_cons]
          rw [List.countP_eq_zero.mpr hall]
          simp
  · refine ⟨?_, fun _ => ?_, by simp⟩
    · unfold resolveBaseline
      rw [hb]
      simpa using hb
    · unfold resolveBaseline
      rw [hb]
      simp

/-- Witness for C4 (amended): a two-benchmark suite with no user-marked
baseline resolves to exactly one baseline, namely the first. -/
theorem resolveBaseline_spec_witness :
    (⟨some "S", [bmA, bmB]⟩ : suite).benchmarks ≠ [] ∧
      (resolveBaseline ⟨some "S", [bmA, bmB]⟩).benchmarks.countP
        (fun b => b.baseline) = 1 :=
  ⟨by decide, (resolveBaseline_spec ⟨some "S", [bmA, bmB]⟩
      (by decide)).2.2 (by decide)⟩

/-! ### Seed handling (claims C5 and C6) -/

/-- Counterexample to C5 as stated: the negative seed `-2` is *not*
replaced by a draw from the non-deterministic source — the whole run is
independent of the device value (shown on the registry of the §8
scenario), whereas for the seed `-1` the device value does determine the
engine seed. -/
theorem negative_seed_counterexample :
    run_benchmarks default_state_iterations default_samples regAB (-2) 3 0 =
        run_benchmarks default_state_iterations default_samples regAB (-2) 4 0 ∧
      effectiveSeed (-2) 3 = effectiveSeed (-2) 4 ∧
      ¬ effectiveSeed (-1) 3 = effectiveSeed (-1) 4 := by decide

/-- Claim C5 as amended: only the seed value `-1` (which is also the
default argument) makes `run_benchmarks` draw its seed from the
non-deterministic source; every other value — including every other
negative value — yields a run that is fully determined by the registry
contents, the seed, and the starting clock. -/
theorem seed_determinism (seed : Int) (hs : seed ≠ -1) (dsi : List Int)
    (ds : Int) (reg : List suite) (d1 d2 : Nat) (c0 : Nat) :
    effectiveSeed (-1) = id ∧
      run_benchmarks dsi ds reg seed d1 c0 =
        run_benchmarks dsi ds reg seed d2 c0 := by
  constructor
  · funext d
    simp [effectiveSeed]
  · have he : effectiveSeed seed d1 = effectiveSeed seed d2 := by
      simp [effectiveSeed, hs]
    unfold run_benchmarks
    rw [he]

/-- Witness for C5 (amended): with seed 5 the §8 registry runs
identically under device draws 3 and 4. -/
theorem seed_determinism_witness :
    (5 : Int) ≠ -1 ∧
      run_benchmarks default_state_iterations default_samples regAB 5 3 0 =
        run_benchmarks default_state_iterations default_samples regAB 5 4 0 :=
  ⟨by decide, (seed_determinism 5 (by decide) default_state_iterations
      default_samples regAB 3 4 0).2⟩

/-! ### Empty registry (claim C8) -/

/-- Claim C8: on an empty registry, `run_benchmarks` returns a report
with an empty suite sequence (no failure), the mutated registry and the
execution trace are empty, and the detailed text view renders no
benchmark rows. -/
theorem empty_registry_run (dsi : List Int) (ds : Int) (seed : Int)
    (device : Nat) (c0 : Nat) :
    run_benchmarks dsi ds [] seed device c0 = ⟨[], ⟨[]⟩, [], c0⟩ ∧
      to_text_rows (run_benchmarks dsi ds [] seed device c0).rpt = [] :=
  ⟨rfl, rfl⟩

/-! ### Expansion-phase lemmas -/

theorem insertSample_pos_le (rng : Nat) (sts : List state) :
    lcgNext rng % (sts.length + 1) ≤ sts.length :=
  Nat.lt_succ_iff.mp (Nat.mod_lt _ (Nat.succ_pos _))

theorem insertSample_perm (rng : Nat) (sts : List state) (iters : Int) :
    (insertSample rng sts iters).2.Perm (state.fresh iters :: sts) := by
  unfold insertSample
  exact List.perm_insertIdx _ _ (insertSample_pos_le rng sts)

theorem insertSample_length (rng : Nat) (sts : List state) (iters : Int) :
    (insertSample rng sts iters).2.length = sts.length + 1 := by
  rw [(insertSample_perm rng sts iters).length_eq]
  rfl

theorem countIters_cons (w : Int) (s : state) (sts : List state) :
    countIters w (s :: sts) =
      countIters w sts + (if s.iterations = w then 1 else 0) := by
  simp [countIters, List.countP_cons]

theorem insertSample_countIters (rng : Nat) (sts : List state) (iters w : Int) :
    countIters w (insertSample rng sts iters).2 =
      countIters w sts + (if iters = w then 1 else 0) := by
  unfold countIters
  rw [(insertSample_perm rng sts iters).countP_eq]
  show countIters w (state.fresh iters :: sts) = _
  rw [countIters_cons]
  rfl

theorem insertSamples_countIters (iters w : Int) :
    ∀ (n rng : Nat) (sts : List state),
      countIters w (insertSamples iters n (rng, sts)).2 =
        countIters w sts + (if iters = w then n else 0)
  | 0, rng, sts => by simp [insertSamples]
  | n + 1, rng, sts => by
      show countIters w (insertSamples iters n (insertSample rng sts iters)).2 = _
      rw [show insertSample rng sts iters =
          ((insertSample rng sts iters).1, (insertSample rng sts iters).2) from rfl]
      rw [insertSamples_countIters iters w n _ _, insertSample_countIters]
      split <;> omega

theorem insertSamples_length (iters : Int) :
    ∀ (n rng : Nat) (sts : List state),
      (insertSamples iters n (rng, sts)).2.length = sts.length + n
  | 0, rng, sts => rfl
  | n + 1, rng, sts => by
      show (insertSamples iters n (insertSample rng sts iters)).2.length = _
      rw [show insertSample rng sts iters =
          ((insertSample rng sts iters).1, (insertSample rng sts iters).2) from rfl]
      rw [insertSamples_length iters n _ _, insertSample_length]
      omega

theorem initFold_countIters (smp : Nat) (w : Int) :
    ∀ (si : List Int) (rng : Nat) (sts : List state),
      countIters w ((si.foldl (fun (p : Nat × List state) iters =>
          insertSamples iters smp p) (rng, sts)).2) =
        countIters w sts + smp * si.count w
  | [], rng, sts => by simp
  | iters :: rest, rng, sts => by
      show countIters w ((rest.foldl _ (insertSamples iters smp (rng, sts)))).2 = _
      rw [show insertSamples iters smp (rng, sts) =
          ((insertSamples iters smp (rng, sts)).1,
           (insertSamples iters smp (rng, sts)).2) from rfl]
      rw [initFold_countIters smp w rest _ _, insertSamples_countIters]
      rw [List.count_cons]
      simp only [beq_iff_eq]
      split <;> ring_nf <;> omega

theorem initFold_length (smp : Nat) :
    ∀ (si : List Int) (rng : Nat) (sts : List state),
      ((si.foldl (fun (p : Nat × List state) iters =>
          insertSamples iters smp p) (rng, sts)).2).length =
        sts.length + smp * si.length
  | [], rng, sts => by simp
  | iters :: rest, rng, sts => by
      show ((rest.foldl _ (insertSamples iters smp (rng, sts)))).2.length = _
      rw [show insertSamples iters smp (rng, sts) =
          ((insertSamples iters smp (rng, sts)).1,
           (insertSamples iters smp (rng, sts)).2) from rfl]
      rw [initFold_length smp rest _ _, insertSamples_length]
      simp [List.length_cons]
      ring

theorem initBenchmark_countIters (dsi : List Int) (ds : Int) (rng : Nat)
    (b : benchmark) (w : Int) :
    countIters w (initBenchmark dsi ds rng b).2.states =
      countIters w b.states +
        (effSamples ds b).toNat * ((effIters dsi b).count w) := by
  show countIters w ((effIters dsi b).foldl (fun (p : Nat × List state) iters =>
      insertSamples iters (effSamples ds b).toNat p) (rng, b.states)).2 = _
  exact initFold_countIters _ w _ rng b.states

theorem initBenchmark_length (dsi : List Int) (ds : Int) (rng : Nat)
    (b : benchmark) :
    (initBenchmark dsi ds rng b).2.states.length =
      b.states.length + (effSamples ds b).toNat * (effIters dsi b).length := by
  show (((effIters dsi b).foldl (fun (p : Nat × List state) iters =>
      insertSamples iters (effSamples ds b).toNat p) (rng, b.states)).2).length = _
  exact initFold_length _ _ rng b.states

theorem initBenchmark_fields (dsi : List Int) (ds : Int) (rng : Nat)
    (b : benchmark) :
    (initBenchmark dsi ds rng b).2.name = b.name ∧
      (initBenchmark dsi ds rng b).2.baseline = b.baseline ∧
      (initBenchmark dsi ds rng b).2.state_iterations = b.state_iterations ∧
      (initBenchmark dsi ds rng b).2.k = b.k ∧
      (initBenchmark dsi ds rng b).2.samples = effSamples ds b ∧
      (initBenchmark dsi ds rng b).2.istate = 0 :=
  ⟨rfl, rfl, rfl, rfl, rfl, rfl⟩

theorem initBenchmarks_length (dsi : List Int) (ds : Int) :
    ∀ (rng : Nat) (bs : List benchmark),
      (initBenchmarks dsi ds rng bs).2.length = bs.length
  | _, [] => rfl
  | rng, b :: bs => by
      show ((initBenchmark dsi ds rng b).2 :: (initBenchmarks dsi ds _ bs).2).length = _
      rw [List.length_cons, initBenchmarks_length dsi ds _ bs]
      rfl

theorem initBenchmarks_getD (dsi : List Int) (ds : Int) :
    ∀ (rng : Nat) (bs : List benchmark) (j : Nat), j < bs.length →
      ∃ r, bAt (initBenchmarks dsi ds rng bs).2 j =
        (initBenchmark dsi ds r (bAt bs j)).2
  | rng, b :: bs, 0, _ => ⟨rng, rfl⟩
  | rng, b :: bs, j + 1, h => by
      show ∃ r, bAt ((initBenchmark dsi ds rng b).2 ::
        (initBenchmarks dsi ds _ bs).2) (j + 1) = _
      simp only [bAt, List.getD_cons_succ]
      exact initBenchmarks_getD dsi ds _ bs j (Nat.lt_of_succ_lt_succ h)

theorem initBenchmarks_istate (dsi : List Int) (ds : Int) :
    ∀ (rng : Nat) (bs : List benchmark) (b : benchmark),
      b ∈ (initBenchmarks dsi ds rng bs).2 → b.istate = 0
  | rng, b0 :: bs, b, h => by
      rcases List.mem_cons.mp h with h | h
      · rw [h]
        rfl
      · exact initBenchmarks_istate dsi ds _ bs b h

theorem initSuites_lenMap (dsi : List Int) (ds : Int) :
    ∀ (rng : Nat) (reg : List suite),
      lenMap (initSuites dsi ds rng reg).2 = lenMap reg
  | _, [] => rfl
  | rng, s :: ss => by
      show lenMap ({ s with benchmarks := (initBenchmarks dsi ds rng s.benchmarks).2 } ::
        (initSuites dsi ds _ ss).2) = _
      simp only [lenMap, List.map_cons]
      rw [show ({ s with benchmarks := (initBenchmarks dsi ds rng s.benchmarks).2 }
          : suite).benchmarks.length = s.benchmarks.length from
        initBenchmarks_length dsi ds rng s.benchmarks]
      have := initSuites_lenMap dsi ds (initBenchmarks dsi ds rng s.benchmarks).1 ss
      simp only [lenMap] at this
      rw [this]

theorem initSuites_length (dsi : List Int) (ds : Int) (rng : Nat)
    (reg : List suite) : (initSuites dsi ds rng reg).2.length = reg.length := by
  have h := initSuites_lenMap dsi ds rng reg
  have h1 := congrArg List.length h
  simpa [lenMap] using h1

theorem initSuites_getD (dsi : List Int) (ds : Int) :
    ∀ (rng : Nat) (reg : List suite) (si : Nat), si < reg.length →
      ∃ r, (initSuites dsi ds rng reg).2.getD si default =
        { reg.getD si default with
            benchmarks := (initBenchmarks dsi ds r
              (reg.getD si default).benchmarks).2 }
  | rng, s :: ss, 0, _ => ⟨rng, rfl⟩
  | rng, s :: ss, si + 1, h => by
      have hstep : (initSuites dsi ds rng (s :: ss)).2 =
          ({ s with benchmarks := (initBenchmarks dsi ds rng s.benchmarks).2 } ::
            (initSuites dsi ds (initBenchmarks dsi ds rng s.benchmarks).1 ss).2) := rfl
      rw [hstep, List.getD_cons_succ]
      exact initSuites_getD dsi ds _ ss si (Nat.lt_of_succ_lt_succ h)

theorem initSuites_istate (dsi : List Int) (ds : Int) :
    ∀ (rng : Nat) (reg : List suite) (s : suite) (b : benchmark),
      s ∈ (initSuites dsi ds rng reg).2 → b ∈ s.benchmarks → b.istate = 0
  | rng, s0 :: ss, s, b, hs, hb => by
      rcases List.mem_cons.mp hs with h | h
      · subst h
        exact initBenchmarks_istate dsi ds rng s0.benchmarks b hb
      · exact initSuites_istate dsi ds _ ss s b h hb

/-! ### Flatten / unflatten indexing -/

theorem resolveBaseline_lenMap (reg : List suite) :
    lenMap (reg.map resolveBaseline) = lenMap reg := by
  induction reg with
  | nil => rfl
  | cons s ss ih =>
      simp only [lenMap, List.map_cons] at ih ⊢
      rw [ih]
      unfold resolveBaseline
      split
      · rfl
      · split
        · rfl
        · next b bs heq => simp [heq]

theorem resolveBaseline_bcore (s : suite) (bi : Nat) :
    bcore ((resolveBaseline s).benchmarks.getD bi benchmark.dummy) =
      bcore (s.benchmarks.getD bi benchmark.dummy) := by
  unfold resolveBaseline
  split
  · rfl
  · cases hbm : s.benchmarks with
    | nil => simp [hbm]
    | cons b bs => cases bi <;> rfl

theorem suiteOffset_eq_of_lenMap {reg reg' : List suite}
    (h : lenMap reg = lenMap reg') (si : Nat) :
    suiteOffset reg si = suiteOffset reg' si := by
  unfold suiteOffset
  rw [List.map_take, List.map_take]
  show ((lenMap reg).take si).sum = ((lenMap reg').take si).sum
  rw [h]

theorem flatBenchmarks_length (reg : List suite) :
    (flatBenchmarks reg).length = (lenMap reg).sum := by
  unfold flatBenchmarks lenMap
  rw [List.length_flatten, List.map_map]
  rfl

theorem flatBenchmarks_getD :
    ∀ (reg : List suite) (si bi : Nat), si < reg.length →
      bi < (reg.getD si default).benchmarks.length →
      bAt (flatBenchmarks reg) (suiteOffset reg si + bi) = benchAt reg si bi
  | s :: ss, 0, bi, _, hbi => by
      show bAt (s.benchmarks ++ flatBenchmarks ss) (0 + bi) = _
      simp only [Nat.zero_add, bAt, benchAt]
      rw [List.getD_append]
      · rfl
      · simpa using hbi
  | s :: ss, si + 1, bi, hsi, hbi => by
      show bAt (s.benchmarks ++ flatBenchmarks ss)
        (suiteOffset (s :: ss) (si + 1) + bi) = _
      have hoff : suiteOffset (s :: ss) (si + 1) + bi =
          s.benchmarks.length + (suiteOffset ss si + bi) := by
        simp only [suiteOffset, List.take_succ_cons, List.map_cons, List.sum_cons]
        omega
      rw [hoff]
      simp only [bAt, List.getD_eq_getElem?_getD]
      rw [List.getElem?_append_right (by omega)]
      have := flatBenchmarks_getD ss si bi (Nat.lt_of_succ_lt_succ hsi) hbi
      simp only [bAt, List.getD_eq_getElem?_getD] at this
      simpa using this

theorem unflatten_length :
    ∀ (reg : List suite) (flat : List benchmark),
      (unflatten reg flat).length = reg.length
  | [], _ => rfl
  | s :: ss, flat => by
      show ((unflatten ss (flat.drop s.benchmarks.length)).length + 1 = _)
      rw [unflatten_length ss _]
      rfl

theorem unflatten_suite :
    ∀ (reg : List suite) (flat : List benchmark) (si : Nat),
      flat.length = (lenMap reg).sum → si < reg.length →
      ((unflatten reg flat).getD si default).name =
          ((reg.getD si default)).name ∧
        ((unflatten reg flat).getD si default).benchmarks.length =
          ((reg.getD si default)).benchmarks.length ∧
        ∀ bi, bi < (reg.getD si default).benchmarks.length →
          benchAt (unflatten reg flat) si bi =
            bAt flat (suiteOffset reg si + bi)
  | s :: ss, flat, 0, hlen, _ => by
      have hle : s.benchmarks.length ≤ flat.length := by
        simp only [lenMap, List.map_cons, List.sum_cons] at hlen
        omega
      refine ⟨rfl, ?_, fun bi hbi => ?_⟩
      · show (flat.take s.benchmarks.length).length = s.benchmarks.length
        rw [List.length_take]
        omega
      show bAt (flat.take s.benchmarks.length) bi = bAt flat (0 + bi)
      simp only [List.getD_cons_zero] at hbi
      simp only [bAt, List.getD_eq_getElem?_getD, Nat.zero_add]
      rw [List.getElem?_take_of_lt hbi]
  | s :: ss, flat, si + 1, hlen, hsi => by
      have hlen2 : (flat.drop s.benchmarks.length).length = (lenMap ss).sum := by
        simp only [lenMap, List.map_cons, List.sum_cons] at hlen ⊢
        simp only [List.length_drop]
        omega
      have ih := unflatten_suite ss (flat.drop s.benchmarks.length) si hlen2
        (Nat.lt_of_succ_lt_succ hsi)
      refine ⟨ih.1, ih.2.1, fun bi hbi => ?_⟩
      have h3 := ih.2.2 bi hbi
      show benchAt (unflatten ss (flat.drop s.benchmarks.length)) si bi = _
      rw [h3]
      have hoff : suiteOffset (s :: ss) (si + 1) + bi =
          s.benchmarks.length + (suiteOffset ss si + bi) := by
        simp only [suiteOffset, List.take_succ_cons, List.map_cons, List.sum_cons]
        omega
      simp only [bAt, List.getD_eq_getElem?_getD, hoff]
      rw [List.getElem?_drop]

theorem unflatten_lenMap :
    ∀ (reg : List suite) (flat : List benchmark),
      flat.length = (lenMap reg).sum →
      lenMap (unflatten reg flat) = lenMap reg
  | [], _, _ => rfl
  | s :: ss, flat, hlen => by
      have hle : s.benchmarks.length ≤ flat.length := by
        simp only [lenMap, List.map_cons, List.sum_cons] at hlen
        omega
      have hlen2 : (flat.drop s.benchmarks.length).length = (lenMap ss).sum := by
        simp only [lenMap, List.map_cons, List.sum_cons] at hlen ⊢
        simp only [List.length_drop]
        omega
      show lenMap ({ s with benchmarks := flat.take s.benchmarks.length } ::
        unflatten ss (flat.drop s.benchmarks.length)) = _
      simp only [lenMap, List.map_cons]
      rw [show ({ s with benchmarks := flat.take s.benchmarks.length }
          : suite).benchmarks.length = s.benchmarks.length by
        simp only [List.length_take]
        omega]
      have ih := unflatten_lenMap ss (flat.drop s.benchmarks.length) hlen2
      simp only [lenMap] at ih
      rw [ih]

theorem getD_mem_of_lt {α : Type} (l : List α) (i : Nat) (d : α)
    (h : i < l.length) : l.getD i d ∈ l := by
  rw [List.getD_eq_getElem?_getD, List.getElem?_eq_getElem h]
  exact List.getElem_mem h

theorem getD_map_general {α β : Type} (f : α → β) (l : List α) (i : Nat)
    (d : α) : (l.map f).getD i (f d) = f (l.getD i d) := by
  simp only [List.getD_eq_getElem?_getD, List.getElem?_map]
  cases l[i]? <;> rfl

/-! ### Scheduling-loop helper lemmas -/

theorem bAt_set_self {bs : List benchmark} {j : Nat} (b2 : benchmark)
    (h : j < bs.length) : bAt (bs.set j b2) j = b2 := by
  simp only [bAt, List.getD_eq_getElem?_getD, List.getElem?_set_self h]
  rfl

theorem bAt_set_ne {bs : List benchmark} {j j' : Nat} (b2 : benchmark)
    (h : j' ≠ j) : bAt (bs.set j b2) j' = bAt bs j' := by
  simp only [bAt, List.getD_eq_getElem?_getD,
    List.getElem?_set_ne (fun he => h he.symm)]

theorem map_set_same {α β : Type} (f : α → β) :
    ∀ (l : List α) (i : Nat) (v d : α), f v = f (l.getD i d) →
      (l.set i v).map f = l.map f
  | [], _, _, _, _ => rfl
  | a :: t, 0, v, d, h => by
      simp only [List.getD_cons_zero] at h
      simp [List.set_cons_zero, h]
  | a :: t, i + 1, v, d, h => by
      simp only [List.getD_cons_succ] at h
      simp only [List.set_cons_succ, List.map_cons]
      rw [map_set_same f t i v d h]

theorem take_set_self {α : Type} :
    ∀ (l : List α) (i : Nat) (v : α), (l.set i v).take i = l.take i
  | [], _, _ => rfl
  | a :: t, 0, v => by simp
  | a :: t, i + 1, v => by
      simp only [List.set_cons_succ, List.take_succ_cons]
      rw [take_set_self t i v]

theorem mem_eraseIdx_of_ne {α : Type} [DecidableEq α] :
    ∀ (l : List α) (i : Nat) (x d : α), x ∈ l → x ≠ l.getD i d →
      x ∈ l.eraseIdx i
  | a :: t, 0, x, d, hm, hne => by
      simp only [List.getD_cons_zero] at hne
      simpa [List.eraseIdx] using (List.mem_cons.mp hm).resolve_left hne
  | a :: t, i + 1, x, d, hm, hne => by
      simp only [List.getD_cons_succ] at hne
      rcases List.mem_cons.mp hm with h | h
      · simp [List.eraseIdx, h]
      · simpa [List.eraseIdx] using
          Or.inr (mem_eraseIdx_of_ne t i x d h hne)

theorem remSum_set :
    ∀ (bs : List benchmark) (j : Nat) (b2 : benchmark), j < bs.length →
      remSum (bs.set j b2) +
          ((bAt bs j).states.length - (bAt bs j).istate) =
        remSum bs + (b2.states.length - b2.istate)
  | b :: bs, 0, b2, _ => by
      simp only [List.set_cons_zero, remSum, List.map_cons, List.sum_cons,
        bAt, List.getD_cons_zero]
      omega
  | b :: bs, j + 1, b2, h => by
      simp only [List.set_cons_succ, remSum, List.map_cons, List.sum_cons,
        bAt, List.getD_cons_succ]
      have := remSum_set bs j b2 (Nat.lt_of_succ_lt_succ h)
      simp only [remSum, bAt] at this
      omega

theorem traceFor_append_self (j : Nat) (tr : List (Nat × Int)) (x : Int) :
    traceFor j (tr ++ [(j, x)]) = traceFor j tr ++ [x] := by
  simp [traceFor, List.filter_append]

theorem traceFor_append_ne {j j' : Nat} (h : j' ≠ j) (tr : List (Nat × Int))
    (x : Int) : traceFor j' (tr ++ [(j, x)]) = traceFor j' tr := by
  simp [traceFor, List.filter_append, Ne.symm h]

/-- A benchmark callable execution, fully evaluated: the clock advances
by `iterations * k`, the state keeps its iteration count, records the
start stamp, and records exactly the loop-spanning duration. -/
theorem execState_eq (k c : Nat) (s : state) :
    execState k c s =
      (c + s.iterations.toNat * k,
       { s with start := c,
                duration_ns := ((s.iterations.toNat * k : Nat) : Int) }) := by
  show ((runRangeFor (fun x => x + k) c s).1,
        (runRangeFor (fun x => x + k) c s).2.1) = _
  simp only [runRangeFor]
  rw [show (state.start_timer c s).iterations = s.iterations from rfl]
  rw [driveFor_eq]
  simp only [iterate_add_const]
  unfold state.stop_timer state.start_timer
  simp only [Prod.mk.injEq, state.mk.injEq]
  refine ⟨trivial, trivial, ?_, trivial⟩
  push_cast
  ring

/-- One scheduling step, fully evaluated in both branches. -/
theorem schedStep_char (st : sched) (j : Nat) (b : benchmark)
    (hj : j = st.working.getD (lcgNext st.rng % st.working.length) 0)
    (hb : b = bAt st.benchmarks j) :
    schedStep st =
      if b.istate < b.states.length then
        ⟨lcgNext st.rng,
         st.clock + (b.states.getD b.istate default).iterations.toNat * b.k,
         st.benchmarks.set j
           { b with
               states := b.states.set b.istate
                 { b.states.getD b.istate default with
                     start := st.clock,
                     duration_ns :=
                       (((b.states.getD b.istate default).iterations.toNat *
                         b.k : Nat) : Int) },
               istate := b.istate + 1 },
         (if b.istate + 1 = b.states.length then
            st.working.eraseIdx (lcgNext st.rng % st.working.length)
          else st.working),
         st.trace ++ [(j, (b.states.getD b.istate default).iterations)]⟩
      else
        ⟨lcgNext st.rng, st.clock, st.benchmarks,
         st.working.eraseIdx (lcgNext st.rng % st.working.length),
         st.trace⟩ := by
  subst hj hb
  simp only [schedStep, bAt, execState_eq, List.length_set]

/-- One scheduling step preserves the loop invariant and strictly
decreases the loop variant. -/
theorem schedStep_inv {B0 : List benchmark} {st : sched}
    (hI : SchedInv B0 st) (hw : st.working ≠ []) :
    SchedInv B0 (schedStep st) ∧ schedMeasure (schedStep st) < schedMeasure st := by
  obtain ⟨len_eq, shell_eq, iters_eq, cursor_le, working_lt, done_off,
    trace_pre, dur_pre⟩ := hI
  have hwlen : 0 < st.working.length := List.length_pos.mpr hw
  have hposlt : lcgNext st.rng % st.working.length < st.working.length :=
    Nat.mod_lt _ hwlen
  have hchar := schedStep_char st _ _ rfl rfl
  set pos := lcgNext st.rng % st.working.length with hposdef
  set j := st.working.getD pos 0 with hjdef
  set b := bAt st.benchmarks j with hbdef
  have hjmem : j ∈ st.working := by
    rw [hjdef, List.getD_eq_getElem?_getD, List.getElem?_eq_getElem hposlt]
    exact List.getElem_mem _
  have hjB : j < B0.length := working_lt j hjmem
  have hjlen : j < st.benchmarks.length := by rw [len_eq]; exact hjB
  by_cases hcur : b.istate < b.states.length
  · rw [hchar, if_pos hcur]
    set s0 := b.states.getD b.istate default with hs0
    set s1 := ({ s0 with start := st.clock, duration_ns := ((s0.iterations.toNat * b.k : Nat) : Int) } : state) with hs1
    set b2 := ({ b with states := b.states.set b.istate s1, istate := b.istate + 1 } : benchmark) with hb2
    have hb2istate : b2.istate = b.istate + 1 := by rw [hb2]
    have hb2k : b2.k = b.k := by rw [hb2]
    have hb2states : b2.states = b.states.set b.istate s1 := by rw [hb2]
    have hb2len : b2.states.length = b.states.length := by
      rw [hb2states]
      exact List.length_set b.states _ _
    have hs1iter : s1.iterations = s0.iterations := by rw [hs1]
    refine ⟨⟨?_, ?_, ?_, ?_, ?_, ?_, ?_, ?_⟩, ?_⟩
    · show (st.benchmarks.set j b2).length = B0.length
      rw [List.length_set]
      exact len_eq
    · intro j'
      by_cases hj' : j' = j
      · subst hj'
        rw [bAt_set_self b2 hjlen]
        have hsh : bshell b2 = bshell b := rfl
        rw [hsh]
        exact shell_eq j
      · rw [bAt_set_ne b2 hj']
        exact shell_eq j'
    · intro j'
      by_cases hj' : j' = j
      · subst hj'
        rw [bAt_set_self b2 hjlen, hb2states]
        rw [map_set_same state.iterations b.states b.istate s1 default
          (by rw [hs1iter, hs0])]
        exact iters_eq j
      · rw [bAt_set_ne b2 hj']
        exact iters_eq j'
    · intro j'
      by_cases hj' : j' = j
      · subst hj'
        rw [bAt_set_self b2 hjlen]
        omega
      · rw [bAt_set_ne b2 hj']
        exact cursor_le j'
    · intro j' hj'
      apply working_lt
      by_cases hrem : b.istate + 1 = b.states.length
      · rw [if_pos hrem] at hj'
        exact List.mem_of_mem_eraseIdx hj'
      · rwa [if_neg hrem] at hj'
    · intro j' hj'B hj'w
      by_cases hrem : b.istate + 1 = b.states.length
      · rw [if_pos hrem] at hj'w
        by_cases hmem : j' ∈ st.working
        · have hj'j : j' = j := by
            by_contra hne
            exact hj'w (mem_eraseIdx_of_ne st.working pos j' 0 hmem
              (by rw [← hjdef]; exact hne))
          subst hj'j
          rw [bAt_set_self b2 hjlen]
          omega
        · have hne : j' ≠ j := fun he => hmem (he ▸ hjmem)
          rw [bAt_set_ne b2 hne]
          exact done_off j' hj'B hmem
      · rw [if_neg hrem] at hj'w
        have hne : j' ≠ j := fun he => hj'w (he ▸ hjmem)
        rw [bAt_set_ne b2 hne]
        exact done_off j' hj'B hj'w
    · intro j'
      by_cases hj' : j' = j
      · subst hj'
        rw [bAt_set_self b2 hjlen, traceFor_append_self, trace_pre j,
          hb2states, hb2istate, List.take_succ, take_set_self,
          List.getElem?_set_self hcur]
        simp [hs1iter, hs0, hbdef]
      · rw [bAt_set_ne b2 hj', traceFor_append_ne hj']
        exact trace_pre j'
    · intro j' i hi
      by_cases hj' : j' = j
      · subst hj'
        rw [bAt_set_self b2 hjlen] at hi ⊢
        rw [hb2k, hb2states]
        rw [hb2istate] at hi
        rcases Nat.lt_succ_iff_lt_or_eq.mp hi with hlt | heq
        · rw [List.getD_eq_getElem?_getD,
            List.getElem?_set_ne (ne_of_gt hlt),
            ← List.getD_eq_getElem?_getD]
          exact dur_pre j i hlt
        · subst heq
          rw [List.getD_eq_getElem?_getD, List.getElem?_set_self hcur]
          show s1.duration_ns = ((s1.iterations.toNat * b.k : Nat) : Int)
          rw [hs1iter, hs1]
      · rw [bAt_set_ne b2 hj'] at hi ⊢
        exact dur_pre j' i hi
    · have hrs : remSum (st.benchmarks.set j b2) + 1 = remSum st.benchmarks := by
        have h := remSum_set st.benchmarks j b2 hjlen
        rw [← hbdef] at h
        omega
      show remSum (st.benchmarks.set j b2) +
          (if b.istate + 1 = b.states.length then st.working.eraseIdx pos
           else st.working).length <
        remSum st.benchmarks + st.working.length
      by_cases hrem : b.istate + 1 = b.states.length
      · rw [if_pos hrem, List.length_eraseIdx, if_pos hposlt]
        omega
      · rw [if_neg hrem]
        omega
  · rw [hchar, if_neg hcur]
    refine ⟨⟨len_eq, shell_eq, iters_eq, cursor_le, ?_, ?_, trace_pre,
      dur_pre⟩, ?_⟩
    · intro j' hj'
      exact working_lt j' (List.mem_of_mem_eraseIdx hj')
    · intro j' hj'B hj'w
      by_cases hmem : j' ∈ st.working
      · have hj'j : j' = j := by
          by_contra hne
          exact hj'w (mem_eraseIdx_of_ne st.working pos j' 0 hmem
            (by rw [← hjdef]; exact hne))
        subst hj'j
        have h1 := cursor_le j
        have h2 : ¬ (bAt st.benchmarks j).istate <
            (bAt st.benchmarks j).states.length := hcur
        show (bAt st.benchmarks j).istate = (bAt st.benchmarks j).states.length
        omega
      · exact done_off j' hj'B hmem
    · show remSum st.benchmarks + (st.working.eraseIdx pos).length <
        remSum st.benchmarks + st.working.length
      rw [List.length_eraseIdx, if_pos hposlt]
      omega

/-- Run the loop with enough fuel and a valid invariant: the invariant
holds at the end and the working set is exhausted. -/
theorem schedLoop_inv (B0 : List benchmark) :
    ∀ (fuel : Nat) (st : sched), SchedInv B0 st → schedMeasure st ≤ fuel →
      SchedInv B0 (schedLoop fuel st) ∧ (schedLoop fuel st).working = []
  | 0, st, hI, hm => by
      have h0 : st.working.length = 0 := by
        unfold schedMeasure at hm
        omega
      exact ⟨hI, List.length_eq_zero.mp h0⟩
  | fuel + 1, st, hI, hm => by
      have hunf : schedLoop (fuel + 1) st =
          if st.working.isEmpty then st else schedLoop fuel (schedStep st) := rfl
      by_cases hw : st.working.isEmpty
      · rw [hunf, if_pos hw]
        exact ⟨hI, List.isEmpty_iff.mp hw⟩
      · rw [hunf, if_neg hw]
        have hne : st.working ≠ [] := by
          simpa [List.isEmpty_iff] using hw
        have hstep := schedStep_inv hI hne
        have hlt := hstep.2
        exact schedLoop_inv B0 fuel (schedStep st) hstep.1 (by omega)

/-- The invariant holds when the loop starts on freshly initialized
benchmarks (all cursors at zero) with the full index range as working
set and an empty trace. -/
theorem SchedInv_init (B0 : List benchmark) (rng clock : Nat)
    (h0 : ∀ j, (bAt B0 j).istate = 0) :
    SchedInv B0 ⟨rng, clock, B0, List.range B0.length, []⟩ := by
  refine ⟨rfl, fun j => rfl, fun j => rfl, ?_, ?_, ?_, ?_, ?_⟩
  · intro j
    rw [h0 j]
    exact Nat.zero_le _
  · intro j hj
    exact List.mem_range.mp hj
  · intro j hj hnj
    exact absurd (List.mem_range.mpr hj) hnj
  · intro j
    rw [h0 j]
    simp [traceFor]
  · intro j i hi
    rw [h0 j] at hi
    exact absurd hi (Nat.not_lt_zero i)

/-! ### Glue lemmas for the full pipeline -/

theorem resolveBaseline_blen (s : suite) :
    (resolveBaseline s).benchmarks.length = s.benchmarks.length := by
  unfold resolveBaseline
  split
  · rfl
  · cases hbm : s.benchmarks with
    | nil => simp [hbm]
    | cons b bs => simp [hbm]

theorem benchAt_map_resolve (reg : List suite) (si bi : Nat)
    (hsi : si < reg.length) :
    benchAt (reg.map resolveBaseline) si bi =
      (resolveBaseline (reg.getD si default)).benchmarks.getD bi
        benchmark.dummy := by
  unfold benchAt
  congr 1
  simp only [List.getD_eq_getElem?_getD, List.getElem?_map,
    List.getElem?_eq_getElem hsi]
  rfl

theorem suiteOffset_add_lt :
    ∀ (reg : List suite) (si bi : Nat), si < reg.length →
      bi < (reg.getD si default).benchmarks.length →
      suiteOffset reg si + bi < (lenMap reg).sum
  | s :: ss, 0, bi, _, hbi => by
      simp only [List.getD_cons_zero] at hbi
      simp only [suiteOffset, List.take_zero, List.map_nil, List.sum_nil,
        lenMap, List.map_cons, List.sum_cons]
      omega
  | s :: ss, si + 1, bi, hsi, hbi => by
      have ih := suiteOffset_add_lt ss si bi (Nat.lt_of_succ_lt_succ hsi)
        (by simpa using hbi)
      simp only [suiteOffset, List.take_succ_cons, List.map_cons,
        List.sum_cons, lenMap] at ih ⊢
      omega

theorem flat_istate (dsi : List Int) (ds : Int) (rng : Nat)
    (reg1 : List suite) (j : Nat) :
    (bAt (flatBenchmarks (initSuites dsi ds rng reg1).2) j).istate = 0 := by
  unfold bAt
  rcases h : (flatBenchmarks (initSuites dsi ds rng reg1).2)[j]? with _ | b
  · simp only [List.getD_eq_getElem?_getD, h]
    rfl
  · have hb : b ∈ flatBenchmarks (initSuites dsi ds rng reg1).2 :=
      List.getElem?_mem h
    unfold flatBenchmarks at hb
    rw [List.mem_flatten] at hb
    obtain ⟨l, hl, hbl⟩ := hb
    rw [List.mem_map] at hl
    obtain ⟨s, hs, rfl⟩ := hl
    have := initSuites_istate dsi ds rng reg1 s b hs hbl
    simp only [List.getD_eq_getElem?_getD, h]
    exact this

theorem bshell_parts {x y : benchmark} (h : bshell x = bshell y) :
    x.name = y.name ∧ x.baseline = y.baseline ∧
      x.state_iterations = y.state_iterations ∧ x.samples = y.samples ∧
      x.k = y.k := by
  unfold bshell at h
  simp only [Prod.mk.injEq] at h
  exact ⟨h.1, h.2.1, h.2.2.1, h.2.2.2.1, h.2.2.2.2⟩

theorem bcore_parts {x y : benchmark} (h : bcore x = bcore y) :
    x.name = y.name ∧ x.state_iterations = y.state_iterations ∧
      x.samples = y.samples ∧ x.k = y.k ∧ x.states = y.states ∧
      x.istate = y.istate := by
  unfold bcore at h
  simp only [Prod.mk.injEq] at h
  exact ⟨h.1, h.2.1, h.2.2.1, h.2.2.2.1, h.2.2.2.2.1, h.2.2.2.2.2⟩

theorem countIters_eq_of_map_eq {l1 l2 : List state}
    (h : l1.map state.iterations = l2.map state.iterations) (w : Int) :
    countIters w l1 = countIters w l2 := by
  unfold countIters
  have h1 : l1.countP (fun st => st.iterations == w) =
      (l1.map state.iterations).countP (fun x => x == w) := by
    rw [List.countP_map]
    rfl
  have h2 : l2.countP (fun st => st.iterations == w) =
      (l2.map state.iterations).countP (fun x => x == w) := by
    rw [List.countP_map]
    rfl
  rw [h1, h2, h]

theorem length_eq_of_map_eq {l1 l2 : List state}
    (h : l1.map state.iterations = l2.map state.iterations) :
    l1.length = l2.length := by
  have := congrArg List.length h
  simpa using this

theorem resolveBaseline_name (s : suite) : (resolveBaseline s).name = s.name := by
  unfold resolveBaseline
  split
  · rfl
  · cases hbm : s.benchmarks with
    | nil => rfl
    | cons b bs => rfl

theorem getD_map_resolveBaseline (reg : List suite) (si : Nat)
    (hsi : si < reg.length) :
    (reg.map resolveBaseline).getD si default =
      resolveBaseline (reg.getD si default) := by
  simp only [List.getD_eq_getElem?_getD, List.getElem?_map,
    List.getElem?_eq_getElem hsi]
  rfl

/-- Full characterization of one `run_benchmarks` call, at the benchmark
with suite index `si` and in-suite registration index `bi`: registry
shape and descriptor fields after the run, baseline resolution, the
complete execution of all generated states, the multiset of generated
workload sizes, the recorded durations, and the per-benchmark execution
trace. -/
theorem run_benchmarks_spec (dsi : List Int) (ds : Int) (reg : List suite)
    (seed : Int) (device c0 : Nat) (si bi : Nat) (R : runResult)
    (b0 bR : benchmark)
    (hsi : si < reg.length)
    (hbi : bi < (reg.getD si default).benchmarks.length)
    (hR : R = run_benchmarks dsi ds reg seed device c0)
    (hb0 : b0 = benchAt reg si bi)
    (hbR : bR = benchAt R.registry si bi) :
    R.registry.length = reg.length ∧
      (R.registry.getD si default).name = (reg.getD si default).name ∧
      (R.registry.getD si default).benchmarks.length =
        (reg.getD si default).benchmarks.length ∧
      bR.name = b0.name ∧
      bR.state_iterations = b0.state_iterations ∧
      bR.k = b0.k ∧
      bR.samples = effSamples ds b0 ∧
      bR.baseline = ((resolveBaseline (reg.getD si default)).benchmarks.getD
        bi benchmark.dummy).baseline ∧
      bR.istate = bR.states.length ∧
      bR.states.length = b0.states.length +
        (effSamples ds b0).toNat * (effIters dsi b0).length ∧
      (∀ w : Int, countIters w bR.states = countIters w b0.states +
        (effSamples ds b0).toNat * ((effIters dsi b0).count w)) ∧
      (∀ i, i < bR.states.length →
        (bR.states.getD i default).duration_ns =
          (((bR.states.getD i default).iterations.toNat * b0.k : Nat) : Int)) ∧
      traceFor (suiteOffset reg si + bi) R.trace =
        bR.states.map state.iterations ∧
      R.rpt = generateReport dsi R.registry ∧
      lenMap R.registry = lenMap reg := by
  set rng0 := lcgInit (effectiveSeed seed device) with hrng0
  set reg1 := reg.map resolveBaseline with hreg1
  set p := initSuites dsi ds rng0 reg1 with hp
  set reg2 := p.2 with hreg2
  set flat := flatBenchmarks reg2 with hflat
  set st0 := (⟨p.1, c0, flat, List.range flat.length, []⟩ : sched) with hst0
  set stF := schedLoop (schedMeasure st0) st0 with hstF
  have hRdef : R = ⟨unflatten reg2 stF.benchmarks,
      generateReport dsi (unflatten reg2 stF.benchmarks), stF.trace,
      stF.clock⟩ := hR
  have hlm1 : lenMap reg1 = lenMap reg := resolveBaseline_lenMap reg
  have hlm2 : lenMap reg2 = lenMap reg1 := initSuites_lenMap dsi ds rng0 reg1
  have hlm : lenMap reg2 = lenMap reg := hlm2.trans hlm1
  have hlen1 : reg1.length = reg.length := List.length_map reg resolveBaseline
  have hlen2 : reg2.length = reg1.length := initSuites_length dsi ds rng0 reg1
  have hsi1 : si < reg1.length := by omega
  have hsi2 : si < reg2.length := by omega
  have hsuite1 : reg1.getD si default = resolveBaseline (reg.getD si default) :=
    getD_map_resolveBaseline reg si hsi
  have hblen1 : (reg1.getD si default).benchmarks.length =
      (reg.getD si default).benchmarks.length := by
    rw [hsuite1]
    exact resolveBaseline_blen _
  obtain ⟨r2, hr2⟩ := initSuites_getD dsi ds rng0 reg1 si hsi1
  have hblen2 : (reg2.getD si default).benchmarks.length =
      (reg1.getD si default).benchmarks.length := by
    rw [hr2]
    exact initBenchmarks_length dsi ds r2 _
  have hbi1 : bi < (reg1.getD si default).benchmarks.length := by omega
  have hbi2 : bi < (reg2.getD si default).benchmarks.length := by omega
  obtain ⟨r3, hr3⟩ := initBenchmarks_getD dsi ds r2
    (reg1.getD si default).benchmarks bi hbi1
  have hb2init : benchAt reg2 si bi =
      (initBenchmark dsi ds r3 (benchAt reg1 si bi)).2 := by
    unfold benchAt
    rw [hr2]
    exact hr3
  have hb1 : benchAt reg1 si bi =
      (resolveBaseline (reg.getD si default)).benchmarks.getD bi
        benchmark.dummy := benchAt_map_resolve reg si bi hsi
  have hb1core : bcore (benchAt reg1 si bi) = bcore b0 := by
    rw [hb1, hb0]
    exact resolveBaseline_bcore (reg.getD si default) bi
  obtain ⟨hcn, hcsi, hcsm, hck, hcst, hcist⟩ := bcore_parts hb1core
  have heffI : effIters dsi (benchAt reg1 si bi) = effIters dsi b0 := by
    unfold effIters
    rw [hcsi]
  have heffS : effSamples ds (benchAt reg1 si bi) = effSamples ds b0 := by
    unfold effSamples
    rw [hcsm]
  have hoff2 : suiteOffset reg2 si = suiteOffset reg si :=
    suiteOffset_eq_of_lenMap hlm si
  have hflatlen : flat.length = (lenMap reg2).sum := flatBenchmarks_length reg2
  have hfIdx : suiteOffset reg si + bi < flat.length := by
    rw [hflatlen, hlm]
    exact suiteOffset_add_lt reg si bi hsi hbi
  have hbAtflat : bAt flat (suiteOffset reg si + bi) = benchAt reg2 si bi := by
    rw [← hoff2]
    exact flatBenchmarks_getD reg2 si bi hsi2 hbi2
  have h0 : ∀ j, (bAt flat j).istate = 0 := by
    intro j
    rw [hflat, hreg2, hp]
    exact flat_istate dsi ds rng0 reg1 j
  have hInv0 : SchedInv flat st0 := by
    rw [hst0]
    exact SchedInv_init flat p.1 c0 h0
  have hFin := schedLoop_inv flat (schedMeasure st0) st0 hInv0 le_rfl
  rw [← hstF] at hFin
  obtain ⟨⟨len_eq, shell_eq, iters_eq, cursor_le, working_lt, done_off,
    trace_pre, dur_pre⟩, hWF⟩ := hFin
  have hdone : ∀ j, j < flat.length →
      (bAt stF.benchmarks j).istate = (bAt stF.benchmarks j).states.length := by
    intro j hj
    refine done_off j hj ?_
    rw [hWF]
    exact List.not_mem_nil j
  have hstFlen : stF.benchmarks.length = (lenMap reg2).sum := by
    rw [len_eq, hflatlen]
  obtain ⟨hUname, hUblen, hUat⟩ :=
    unflatten_suite reg2 stF.benchmarks si hstFlen hsi2
  have hbRdef : bR = bAt stF.benchmarks (suiteOffset reg si + bi) := by
    rw [hbR, hRdef]
    show benchAt (unflatten reg2 stF.benchmarks) si bi = _
    rw [hUat bi hbi2, hoff2]
  have hshell : bshell bR = bshell (benchAt reg2 si bi) := by
    rw [hbRdef, ← hbAtflat]
    exact shell_eq (suiteOffset reg si + bi)
  obtain ⟨hshn, hshb, hshsi, hshsm, hshk⟩ := bshell_parts hshell
  have hiters : bR.states.map state.iterations =
      (benchAt reg2 si bi).states.map state.iterations := by
    rw [hbRdef, ← hbAtflat]
    exact iters_eq (suiteOffset reg si + bi)
  obtain ⟨hin, hib, hisi, hik, hism, hii⟩ :=
    initBenchmark_fields dsi ds r3 (benchAt reg1 si bi)
  refine ⟨?_, ?_, ?_, ?_, ?_, ?_, ?_, ?_, ?_, ?_, ?_, ?_, ?_, ?_, ?_⟩
  · rw [hRdef]
    show (unflatten reg2 stF.benchmarks).length = reg.length
    rw [unflatten_length]
    omega
  · rw [hRdef]
    show ((unflatten reg2 stF.benchmarks).getD si default).name =
      (reg.getD si default).name
    rw [hUname, hr2]
    show (reg1.getD si default).name = _
    rw [hsuite1, resolveBaseline_name]
  · rw [hRdef]
    show ((unflatten reg2 stF.benchmarks).getD si default).benchmarks.length =
      (reg.getD si default).benchmarks.length
    rw [hUblen]
    omega
  · rw [hshn, hb2init, hin, hcn]
  · rw [hshsi, hb2init, hisi, hcsi]
  · rw [hshk, hb2init, hik, hck]
  · rw [hshsm, hb2init, hism, heffS]
  · rw [hshb, hb2init, hib, hb1]
  · rw [hbRdef]
    exact hdone (suiteOffset reg si + bi) hfIdx
  · rw [length_eq_of_map_eq hiters, hb2init, initBenchmark_length,
      heffS, heffI, hcst]
  · intro w
    rw [countIters_eq_of_map_eq hiters w, hb2init,
      initBenchmark_countIters, heffS, heffI, hcst]
  · intro i hi
    have hklocal : (bAt stF.benchmarks (suiteOffset reg si + bi)).k = b0.k := by
      rw [← hbRdef]
      rw [hshk, hb2init, hik, hck]
    have hi2 : i < (bAt stF.benchmarks (suiteOffset reg si + bi)).istate := by
      rw [hdone (suiteOffset reg si + bi) hfIdx, ← hbRdef]
      exact hi
    have hd := dur_pre (suiteOffset reg si + bi) i hi2
    rw [hklocal] at hd
    rw [← hbRdef] at hd
    exact hd
  · rw [hRdef]
    show traceFor (suiteOffset reg si + bi) stF.trace =
      bR.states.map state.iterations
    rw [trace_pre (suiteOffset reg si + bi),
      hdone (suiteOffset reg si + bi) hfIdx, List.take_length, ← hbRdef]
  · rw [hRdef]
  · rw [hRdef]
    show lenMap (unflatten reg2 stF.benchmarks) = lenMap reg
    rw [unflatten_lenMap reg2 stF.benchmarks hstFlen, hlm]

/-! ### Report aggregation -/

/-- The aggregation loop of `run_benchmarks`, evaluated: each data entry
collects the count and total duration of exactly the states whose
iteration count equals its dimension. -/
theorem accumulate_foldl :
    ∀ (sts : List state) (data0 : List benchmark_problem_space),
      sts.foldl accumulate data0 = data0.map (fun d =>
        { d with
            samples := d.samples + countIters d.dimension sts,
            total_time_ns := d.total_time_ns +
              ((sts.filter (fun st => st.iterations == d.dimension)).map
                state.duration_ns).sum })
  | [], data0 => by
      simp [countIters]
  | s :: rest, data0 => by
      show rest.foldl accumulate (accumulate data0 s) = _
      rw [accumulate_foldl rest (accumulate data0 s)]
      unfold accumulate
      rw [List.map_map]
      apply List.map_congr_left
      intro d _
      simp only [Function.comp]
      by_cases hiw : s.iterations = d.dimension
      · rw [if_pos hiw]
        have hfc : (s :: rest).filter (fun st => st.iterations == d.dimension) =
            s :: rest.filter (fun st => st.iterations == d.dimension) := by
          rw [List.filter_cons, if_pos (by simp [hiw])]
        have hcc : countIters d.dimension (s :: rest) =
            countIters d.dimension rest + 1 := by
          rw [countIters_cons, if_pos hiw]
        rw [hcc, hfc]
        simp only [List.map_cons, List.sum_cons,
          benchmark_problem_space.mk.injEq, true_and]
        exact ⟨by omega, by ring⟩
      · rw [if_neg hiw]
        have hfc : (s :: rest).filter (fun st => st.iterations == d.dimension) =
            rest.filter (fun st => st.iterations == d.dimension) := by
          rw [List.filter_cons, if_neg (by simpa using hiw)]
        have hcc : countIters d.dimension (s :: rest) =
            countIters d.dimension rest + 0 := by
          rw [countIters_cons, if_neg hiw]
        rw [hcc, hfc]
        simp

/-- The data rows of one benchmark's report entry: one row per configured
iteration count, carrying the observed sample count and the truncated
average of the matching states' durations. -/
theorem genReportBenchmark_data (dsi : List Int) (b : benchmark) :
    (genReportBenchmark dsi b).data = (effIters dsi b).map (fun w =>
      ⟨w, countIters w b.states,
        (((b.states.filter (fun st => st.iterations == w)).map
          state.duration_ns).sum).tdiv ((countIters w b.states : Nat) : Int)⟩) := by
  simp only [genReportBenchmark]
  rw [accumulate_foldl, List.map_map, List.map_map]
  apply List.map_congr_left
  intro w _
  simp only [Function.comp]
  simp

theorem genReportBenchmark_name (dsi : List Int) (b : benchmark) :
    (genReportBenchmark dsi b).name = b.name := rfl

theorem genReportBenchmark_is_baseline (dsi : List Int) (b : benchmark) :
    (genReportBenchmark dsi b).is_baseline = b.baseline := rfl

/-- The report entry of the benchmark at `(si, bi)`. -/
theorem generateReport_benchAt (dsi : List Int) (reg : List suite)
    (si bi : Nat) (hsi : si < reg.length)
    (hbi : bi < (reg.getD si default).benchmarks.length) :
    ((generateReport dsi reg).suites.getD si default).benchmarks.getD bi
        default = genReportBenchmark dsi (benchAt reg si bi) := by
  have hbi' : bi < reg[si].benchmarks.length := by
    rw [List.getD_eq_getElem?_getD, List.getElem?_eq_getElem hsi] at hbi
    exact hbi
  unfold generateReport benchAt
  simp only [List.getD_eq_getElem?_getD, List.getElem?_map,
    List.getElem?_eq_getElem hsi, Option.map_some', Option.getD_some,
    List.getElem?_eq_getElem hbi']

theorem count_map_iterations (w : Int) (sts : List state) :
    (sts.map state.iterations).count w = countIters w sts := by
  show (sts.map state.iterations).countP (fun x => x == w) = _
  rw [List.countP_map]
  rfl

theorem getD_map_of_lt {α β : Type} (f : α → β) (l : List α) (i : Nat)
    (d : β) (d' : α) (h : i < l.length) :
    (l.map f).getD i d = f (l.getD i d') := by
  simp only [List.getD_eq_getElem?_getD, List.getElem?_map,
    List.getElem?_eq_getElem h]
  rfl

theorem dur_forall_mem {k : Nat} {sts : List state}
    (h : ∀ i, i < sts.length → (sts.getD i default).duration_ns =
      (((sts.getD i default).iterations.toNat * k : Nat) : Int)) :
    ∀ st ∈ sts, st.duration_ns = ((st.iterations.toNat * k : Nat) : Int) := by
  intro st hst
  obtain ⟨i, hi, hEq⟩ := List.mem_iff_getElem.mp hst
  have h2 := h i hi
  rw [List.getD_eq_getElem?_getD, List.getElem?_eq_getElem hi] at h2
  simp only [Option.getD_some] at h2
  rw [← hEq]
  exact h2

theorem filter_dur_sum {k : Nat} {w : Int} :
    ∀ {sts : List state},
      (∀ st ∈ sts, st.duration_ns = ((st.iterations.toNat * k : Nat) : Int)) →
      ((sts.filter (fun st => st.iterations == w)).map state.duration_ns).sum =
        ((countIters w sts : Nat) : Int) * ((w.toNat * k : Nat) : Int)
  | [], _ => by simp [countIters]
  | s :: rest, h => by
      have hs := h s (List.mem_cons_self s rest)
      have hrest := @filter_dur_sum k w rest
        (fun st hst => h st (List.mem_cons_of_mem s hst))
      rw [List.filter_cons, countIters_cons]
      by_cases hiw : s.iterations = w
      · rw [if_pos (by simpa using hiw), if_pos hiw, List.map_cons,
          List.sum_cons, hrest, hs, hiw]
        push_cast
        ring
      · rw [if_neg (by simpa using hiw), if_neg hiw, hrest]
        push_cast
        ring

theorem count_mul_tdiv (c x : Nat) (hc : 0 < c) :
    (((c * x : Nat) : Int)).tdiv ((c : Nat) : Int) = ((x : Nat) : Int) := by
  rw [← Int.ofNat_tdiv]
  rw [Nat.mul_div_cancel_left x hc]

/-! ### Claim C1: exactly-once execution of every generated state -/

/-- Claim C1: on a fresh registry, a single `run_benchmarks` call
generates, for the benchmark at `(si, bi)` with distinct effective
workload sizes `W` and effective sample count `s`, exactly `s × |W|`
measurement states, and the scheduling loop executes each of them exactly
once: the cursor ends at the end of the state vector, the benchmark's
execution trace is exactly its state sequence (nothing skipped or
duplicated), and for every workload size `w ∈ W` exactly `s` units with
target `w` were executed. -/
theorem exactly_once_execution (dsi : List Int) (ds : Int) (reg : List suite)
    (seed : Int) (device c0 : Nat) (si bi : Nat)
    (hsi : si < reg.length)
    (hbi : bi < (reg.getD si default).benchmarks.length)
    (hfresh : (benchAt reg si bi).states = [])
    (hnd : (effIters dsi (benchAt reg si bi)).Nodup)
    (hs : 0 < (effSamples ds (benchAt reg si bi)).toNat) :
    (benchAt (run_benchmarks dsi ds reg seed device c0).registry si
        bi).states.length =
      (effSamples ds (benchAt reg si bi)).toNat *
        (effIters dsi (benchAt reg si bi)).length ∧
    traceFor (suiteOffset reg si + bi)
        (run_benchmarks dsi ds reg seed device c0).trace =
      (benchAt (run_benchmarks dsi ds reg seed device c0).registry si
        bi).states.map state.iterations ∧
    (benchAt (run_benchmarks dsi ds reg seed device c0).registry si
        bi).istate =
      (benchAt (run_benchmarks dsi ds reg seed device c0).registry si
        bi).states.length ∧
    (∀ w ∈ effIters dsi (benchAt reg si bi),
      (traceFor (suiteOffset reg si + bi)
        (run_benchmarks dsi ds reg seed device c0).trace).count w =
        (effSamples ds (benchAt reg si bi)).toNat) := by
  obtain ⟨h1, h2, h3, hname, hsiter, hk, hsm, hbase, hist, hlen, hcount,
    hdur, htr, hrpt, hlm⟩ := run_benchmarks_spec dsi ds reg seed device c0
      si bi _ _ _ hsi hbi rfl rfl rfl
  rw [hfresh] at hlen hcount
  simp only [List.length_nil, Nat.zero_add] at hlen
  refine ⟨hlen, htr, hist, ?_⟩
  intro w hw
  rw [htr, count_map_iterations, hcount w]
  rw [show countIters w [] = 0 from rfl, List.count_eq_one_of_mem hnd hw]
  omega

/-- Witness for C1: the §8 registry, seed 42; benchmark "A" (suite 0,
index 0) has one workload size (10) and one sample, and exactly one unit
with target 10 appears in its trace. -/
theorem exactly_once_execution_witness :
    (0 : Nat) < regAB.length ∧
      (0 : Nat) < (regAB.getD 0 default).benchmarks.length ∧
      (benchAt regAB 0 0).states = [] ∧
      (effIters default_state_iterations (benchAt regAB 0 0)).Nodup ∧
      0 < (effSamples default_samples (benchAt regAB 0 0)).toNat ∧
      (traceFor (suiteOffset regAB 0 + 0)
        (run_benchmarks default_state_iterations default_samples regAB 42 0
          0).trace).count 10 = 1 :=
  ⟨by decide, by decide, by decide, by decide, by decide, by
    have h := exactly_once_execution default_state_iterations default_samples
      regAB 42 0 0 0 0 (by decide) (by decide) (by decide) (by decide)
      (by decide)
    exact (h.2.2.2 10 (by decide)).trans (by decide)⟩

/-! ### Claim C3: per-workload-size averaging -/

/-- Claim C3: on a fresh registry with distinct positive workload sizes,
each report data entry of the benchmark at `(si, bi)` is computed by
summing `duration_ns` over the executed states of the matching workload
size and dividing by their number (truncating integer division); with the
benchmark's callable advancing the fake clock `k` nanoseconds per
iteration, the entry for workload size `w` reports exactly `s` samples
and an average total time of `k * w` nanoseconds. -/
theorem report_average (dsi : List Int) (ds : Int) (reg : List suite)
    (seed : Int) (device c0 : Nat) (si bi : Nat)
    (hsi : si < reg.length)
    (hbi : bi < (reg.getD si default).benchmarks.length)
    (hfresh : (benchAt reg si bi).states = [])
    (hnd : (effIters dsi (benchAt reg si bi)).Nodup)
    (hs : 0 < (effSamples ds (benchAt reg si bi)).toNat)
    (hpos : ∀ w ∈ effIters dsi (benchAt reg si bi), 0 < w) :
    ((((run_benchmarks dsi ds reg seed device c0).rpt.suites.getD si
        default).benchmarks.getD bi default).data).length =
      (effIters dsi (benchAt reg si bi)).length ∧
    ∀ i, i < (effIters dsi (benchAt reg si bi)).length →
      (((run_benchmarks dsi ds reg seed device c0).rpt.suites.getD si
          default).benchmarks.getD bi default).data.getD i default =
        ⟨(effIters dsi (benchAt reg si bi)).getD i 0,
         (effSamples ds (benchAt reg si bi)).toNat,
         ((benchAt reg si bi).k : Int) *
           ((effIters dsi (benchAt reg si bi)).getD i 0)⟩ := by
  obtain ⟨h1, h2, h3, hname, hsiter, hk, hsm, hbase, hist, hlen, hcount,
    hdur, htr, hrpt, hlm⟩ := run_benchmarks_spec dsi ds reg seed device c0
      si bi _ _ _ hsi hbi rfl rfl rfl
  have hsi' : si < (run_benchmarks dsi ds reg seed device c0).registry.length := by
    omega
  have hbi' : bi < ((run_benchmarks dsi ds reg seed device
      c0).registry.getD si default).benchmarks.length := by
    omega
  have hrb := generateReport_benchAt dsi
    (run_benchmarks dsi ds reg seed device c0).registry si bi hsi' hbi'
  rw [← hrpt] at hrb
  have hW : effIters dsi (benchAt (run_benchmarks dsi ds reg seed device
      c0).registry si bi) = effIters dsi (benchAt reg si bi) := by
    unfold effIters
    rw [hsiter]
  have hdata := genReportBenchmark_data dsi
    (benchAt (run_benchmarks dsi ds reg seed device c0).registry si bi)
  rw [hW] at hdata
  have hcnt : ∀ w ∈ effIters dsi (benchAt reg si bi),
      countIters w (benchAt (run_benchmarks dsi ds reg seed device
        c0).registry si bi).states =
        (effSamples ds (benchAt reg si bi)).toNat := by
    intro w hw
    rw [hcount w, hfresh]
    rw [show countIters w [] = 0 from rfl, List.count_eq_one_of_mem hnd hw]
    omega
  have hmem := dur_forall_mem hdur
  constructor
  · rw [hrb, hdata, List.length_map]
  · intro i hi
    rw [hrb, hdata, getD_map_of_lt _ _ i default 0 hi]
    have hwmem : (effIters dsi (benchAt reg si bi)).getD i 0 ∈
        effIters dsi (benchAt reg si bi) := getD_mem_of_lt _ i 0 hi
    rw [filter_dur_sum hmem, hcnt _ hwmem]
    have hwpos : 0 < (effIters dsi (benchAt reg si bi)).getD i 0 :=
      hpos _ hwmem
    have hdivstep :
        (((effSamples ds (benchAt reg si bi)).toNat : Int) *
          ((((effIters dsi (benchAt reg si bi)).getD i 0).toNat *
            (benchAt reg si bi).k : Nat) : Int)).tdiv
          (((effSamples ds (benchAt reg si bi)).toNat : Nat) : Int) =
          ((((effIters dsi (benchAt reg si bi)).getD i 0).toNat *
            (benchAt reg si bi).k : Nat) : Int) := by
      rw [show (((effSamples ds (benchAt reg si bi)).toNat : Int) *
          ((((effIters dsi (benchAt reg si bi)).getD i 0).toNat *
            (benchAt reg si bi).k : Nat) : Int)) =
          ((((effSamples ds (benchAt reg si bi)).toNat *
            (((effIters dsi (benchAt reg si bi)).getD i 0).toNat *
              (benchAt reg si bi).k) : Nat)) : Int) by push_cast; ring]
      exact count_mul_tdiv _ _ hs
    rw [hdivstep]
    have hcast : ((((effIters dsi (benchAt reg si bi)).getD i 0).toNat *
        (benchAt reg si bi).k : Nat) : Int) =
        ((benchAt reg si bi).k : Int) *
          ((effIters dsi (benchAt reg si bi)).getD i 0) := by
      push_cast [Int.toNat_of_nonneg (le_of_lt hwpos)]
      ring
    rw [hcast]

/-- Witness for C3: in the §8 scenario, the report row of benchmark "A"
for workload size 10 shows 1 sample and an average total time of
100 ns/iteration × 10 iterations = 1000 ns. -/
theorem report_average_witness :
    (∀ w ∈ effIters default_state_iterations (benchAt regAB 0 0), 0 < w) ∧
      (((run_benchmarks default_state_iterations default_samples regAB 42 0
          0).rpt.suites.getD 0 default).benchmarks.getD 0
        default).data.getD 0 default = ⟨10, 1, 1000⟩ :=
  ⟨by decide, by
    have h := report_average default_state_iterations default_samples regAB
      42 0 0 0 0 (by decide) (by decide) (by decide) (by decide) (by decide)
      (by decide)
    exact (h.2 0 (by decide)).trans (by decide)⟩

/-! ### Claim C10: duplicated workload sizes -/

/-- Claim C10: if the effective workload-size list repeats a value `w` in
`m` positions, the benchmark's report carries one data entry per position
(so `m` entries of dimension `w`), and every executed state with target
`w` is accumulated into each of them, making every such entry's observed
sample count `m × s` instead of the configured `s`, with the total
averaged over `m × s` states. -/
theorem duplicate_dimension_entries (dsi : List Int) (ds : Int)
    (reg : List suite) (seed : Int) (device c0 : Nat) (si bi : Nat)
    (hsi : si < reg.length)
    (hbi : bi < (reg.getD si default).benchmarks.length)
    (hfresh : (benchAt reg si bi).states = [])
    (hs : 0 < (effSamples ds (benchAt reg si bi)).toNat) :
    ((((run_benchmarks dsi ds reg seed device c0).rpt.suites.getD si
        default).benchmarks.getD bi default).data).length =
      (effIters dsi (benchAt reg si bi)).length ∧
    (∀ w : Int,
      (((run_benchmarks dsi ds reg seed device c0).rpt.suites.getD si
          default).benchmarks.getD bi default).data.countP
        (fun d => d.dimension == w) =
        (effIters dsi (benchAt reg si bi)).count w) ∧
    ∀ i, i < (effIters dsi (benchAt reg si bi)).length →
      ((((run_benchmarks dsi ds reg seed device c0).rpt.suites.getD si
          default).benchmarks.getD bi default).data.getD i
        default).dimension = (effIters dsi (benchAt reg si bi)).getD i 0 ∧
      ((((run_benchmarks dsi ds reg seed device c0).rpt.suites.getD si
          default).benchmarks.getD bi default).data.getD i
        default).samples =
        (effSamples ds (benchAt reg si bi)).toNat *
          ((effIters dsi (benchAt reg si bi)).count
            ((effIters dsi (benchAt reg si bi)).getD i 0)) := by
  obtain ⟨h1, h2, h3, hname, hsiter, hk, hsm, hbase, hist, hlen, hcount,
    hdur, htr, hrpt, hlm⟩ := run_benchmarks_spec dsi ds reg seed device c0
      si bi _ _ _ hsi hbi rfl rfl rfl
  have hsi' : si < (run_benchmarks dsi ds reg seed device
      c0).registry.length := by omega
  have hbi' : bi < ((run_benchmarks dsi ds reg seed device
      c0).registry.getD si default).benchmarks.length := by omega
  have hrb := generateReport_benchAt dsi
    (run_benchmarks dsi ds reg seed device c0).registry si bi hsi' hbi'
  rw [← hrpt] at hrb
  have hW : effIters dsi (benchAt (run_benchmarks dsi ds reg seed device
      c0).registry si bi) = effIters dsi (benchAt reg si bi) := by
    unfold effIters
    rw [hsiter]
  have hdata := genReportBenchmark_data dsi
    (benchAt (run_benchmarks dsi ds reg seed device c0).registry si bi)
  rw [hW] at hdata
  have hcnt : ∀ w : Int,
      countIters w (benchAt (run_benchmarks dsi ds reg seed device
        c0).registry si bi).states =
        (effSamples ds (benchAt reg si bi)).toNat *
          ((effIters dsi (benchAt reg si bi)).count w) := by
    intro w
    rw [hcount w, hfresh]
    rw [show countIters w [] = 0 from rfl]
    omega
  refine ⟨?_, ?_, ?_⟩
  · rw [hrb, hdata, List.length_map]
  · intro w
    rw [hrb, hdata, List.countP_map]
    rfl
  · intro i hi
    rw [hrb, hdata, getD_map_of_lt _ _ i default 0 hi]
    exact ⟨rfl, hcnt _⟩

/-- Witness for C10: benchmark "D" lists workload size 2 twice (and 3
once) with one sample; its report has two entries of dimension 2, each
showing 2 observed samples. -/
theorem duplicate_dimension_entries_witness :
    (benchAt regD 0 0).states = [] ∧
      (((run_benchmarks default_state_iterations default_samples regD 7 0
          0).rpt.suites.getD 0 default).benchmarks.getD 0
        default).data.countP (fun d => d.dimension == 2) = 2 ∧
      ((((run_benchmarks default_state_iterations default_samples regD 7 0
          0).rpt.suites.getD 0 default).benchmarks.getD 0
        default).data.getD 0 default).samples = 2 :=
  ⟨by decide, by
    have h := duplicate_dimension_entries default_state_iterations
      default_samples regD 7 0 0 0 0 (by decide) (by decide) (by decide)
      (by decide)
    exact (h.2.1 2).trans (by decide), by
    have h := duplicate_dimension_entries default_state_iterations
      default_samples regD 7 0 0 0 0 (by decide) (by decide) (by decide)
      (by decide)
    exact ((h.2.2 0 (by decide)).2).trans (by decide)⟩

/-! ### Claim C9: a second run re-executes and doubles the counts -/

/-- Claim C9: `run_benchmarks` mutates the registered descriptors
persistently — the resolved sample count is written back, and the state
vector is appended to without being cleared — so a second call on the
same registry re-executes the first call's states in addition to a fresh
batch: the benchmark ends up with `2·s·|W|` states, its second-run trace
has `2·s·|W|` units, and every per-group observed sample count in the
second report is `2·s` instead of the configured `s`. -/
theorem run_twice_doubles_samples (dsi : List Int) (ds : Int)
    (reg : List suite) (seed1 : Int) (d1 c1 : Nat) (seed2 : Int)
    (d2 c2 : Nat) (si bi : Nat) (R1 R2 : runResult)
    (hR1 : R1 = run_benchmarks dsi ds reg seed1 d1 c1)
    (hR2 : R2 = run_benchmarks dsi ds R1.registry seed2 d2 c2)
    (hsi : si < reg.length)
    (hbi : bi < (reg.getD si default).benchmarks.length)
    (hfresh : (benchAt reg si bi).states = [])
    (hnd : (effIters dsi (benchAt reg si bi)).Nodup)
    (hs : 0 < (effSamples ds (benchAt reg si bi)).toNat) :
    (benchAt R1.registry si bi).samples =
        effSamples ds (benchAt reg si bi) ∧
      (benchAt R2.registry si bi).states.length =
        2 * ((effSamples ds (benchAt reg si bi)).toNat *
          (effIters dsi (benchAt reg si bi)).length) ∧
      (traceFor (suiteOffset reg si + bi) R2.trace).length =
        2 * ((effSamples ds (benchAt reg si bi)).toNat *
          (effIters dsi (benchAt reg si bi)).length) ∧
      ∀ i, i < (effIters dsi (benchAt reg si bi)).length →
        (((R2.rpt.suites.getD si default).benchmarks.getD bi
          default).data.getD i default).samples =
          2 * (effSamples ds (benchAt reg si bi)).toNat := by
  obtain ⟨a1, a2, a3, aname, asiter, ak, asm, abase, aist, alen, acount,
    adur, atr, arpt, alm⟩ := run_benchmarks_spec dsi ds reg seed1 d1 c1
      si bi R1 _ _ hsi hbi hR1 rfl rfl
  have hsi2 : si < R1.registry.length := by omega
  have hbi2 : bi < (R1.registry.getD si default).benchmarks.length := by
    omega
  obtain ⟨b1, b2, b3, bname, bsiter, bk, bsm, bbase, bist, blen, bcount,
    bdur, btr, brpt, blm⟩ := run_benchmarks_spec dsi ds R1.registry seed2
      d2 c2 si bi R2 _ _ hsi2 hbi2 hR2 rfl rfl
  have hSne : (benchAt R1.registry si bi).samples ≠ 0 := by
    rw [asm]
    omega
  have heff2 : effSamples ds (benchAt R1.registry si bi) =
      effSamples ds (benchAt reg si bi) := by
    show (if (benchAt R1.registry si bi).samples = 0 then ds
      else (benchAt R1.registry si bi).samples) = _
    rw [if_neg hSne, asm]
  have hW2 : effIters dsi (benchAt R1.registry si bi) =
      effIters dsi (benchAt reg si bi) := by
    unfold effIters
    rw [asiter]
  rw [hfresh] at alen acount
  simp only [List.length_nil, Nat.zero_add] at alen
  rw [heff2, hW2] at blen bcount
  rw [alen] at blen
  have hoffeq : suiteOffset R1.registry si = suiteOffset reg si :=
    suiteOffset_eq_of_lenMap alm si
  refine ⟨asm, by omega, ?_, ?_⟩
  · rw [← hoffeq, btr]
    rw [List.length_map]
    omega
  · intro i hi
    have hsi3 : si < R2.registry.length := by omega
    have hbi3 : bi < (R2.registry.getD si default).benchmarks.length := by
      omega
    have hrb := generateReport_benchAt dsi R2.registry si bi hsi3 hbi3
    rw [← brpt] at hrb
    have hW3 : effIters dsi (benchAt R2.registry si bi) =
        effIters dsi (benchAt reg si bi) := by
      unfold effIters
      rw [bsiter, asiter]
    have hdata := genReportBenchmark_data dsi (benchAt R2.registry si bi)
    rw [hW3] at hdata
    rw [hrb, hdata, getD_map_of_lt _ _ i default 0 hi]
    show countIters ((effIters dsi (benchAt reg si bi)).getD i 0)
      (benchAt R2.registry si bi).states = _
    have hwmem := getD_mem_of_lt (effIters dsi (benchAt reg si bi)) i 0 hi
    rw [bcount, acount, List.count_eq_one_of_mem hnd hwmem]
    rw [show countIters ((effIters dsi (benchAt reg si bi)).getD i 0) []
      = 0 from rfl]
    omega

/-- Witness for C9: running benchmark "C" (two workload sizes, two
samples) twice on the same registry: after the first run the descriptor's
sample count is 2, and the second report observes 4 samples per group. -/
theorem run_twice_doubles_samples_witness :
    (benchAt regC 0 0).states = [] ∧
      ((((run_benchmarks default_state_iterations default_samples
          (run_benchmarks default_state_iterations default_samples regC 1 0
            0).registry 1 0 0).rpt.suites.getD 0 default).benchmarks.getD 0
        default).data.getD 0 default).samples = 4 :=
  ⟨by decide, by
    have h := run_twice_doubles_samples default_state_iterations
      default_samples regC 1 0 0 1 0 0 0 0
      (run_benchmarks default_state_iterations default_samples regC 1 0 0)
      (run_benchmarks default_state_iterations default_samples
        (run_benchmarks default_state_iterations default_samples regC 1 0
          0).registry 1 0 0) rfl rfl (by decide) (by decide) (by decide)
      (by decide) (by decide)
    exact (h.2.2.2 0 (by decide)).trans (by decide)⟩

/-! ### Claim C6: deterministic interleaving for a fixed seed -/

theorem bsim_parts {x y : benchmark} (h : bsim x = bsim y) :
    x.name = y.name ∧ x.baseline = y.baseline ∧
      x.state_iterations = y.state_iterations ∧ x.samples = y.samples ∧
      x.k = y.k ∧ x.istate = y.istate ∧
      x.states.map state.iterations = y.states.map state.iterations := by
  unfold bsim at h
  simp only [Prod.mk.injEq] at h
  exact ⟨h.1, h.2.1, h.2.2.1, h.2.2.2.1, h.2.2.2.2.1, h.2.2.2.2.2.1,
    h.2.2.2.2.2.2⟩

theorem getD_iterations_of_map_eq {l1 l2 : List state}
    (h : l1.map state.iterations = l2.map state.iterations) (i : Nat) :
    (l1.getD i default).iterations = (l2.getD i default).iterations := by
  have h1 := getD_map_general state.iterations l1 i default
  have h2 := getD_map_general state.iterations l2 i default
  rw [← h1, ← h2, h]

/-- A scheduling step is driven only by the engine, the working set, and
the duration-free projection of the benchmarks: two scheduler states
agreeing on those (the clock and recorded durations may differ) still
agree on them after one step, and keep identical traces. -/
theorem schedStep_sim (s1 s2 : sched)
    (hrng : s1.rng = s2.rng) (hw : s1.working = s2.working)
    (htr : s1.trace = s2.trace)
    (hlen : s1.benchmarks.length = s2.benchmarks.length)
    (hb : ∀ j, bsim (bAt s1.benchmarks j) = bsim (bAt s2.benchmarks j)) :
    (schedStep s1).rng = (schedStep s2).rng ∧
      (schedStep s1).working = (schedStep s2).working ∧
      (schedStep s1).trace = (schedStep s2).trace ∧
      (schedStep s1).benchmarks.length = (schedStep s2).benchmarks.length ∧
      ∀ j, bsim (bAt (schedStep s1).benchmarks j) =
        bsim (bAt (schedStep s2).benchmarks j) := by
  have hc1 := schedStep_char s1 _ _ rfl rfl
  have hc2 := schedStep_char s2 _ _ rfl rfl
  have hposeq : lcgNext s1.rng % s1.working.length =
      lcgNext s2.rng % s2.working.length := by rw [hrng, hw]
  have hjeq : s1.working.getD (lcgNext s1.rng % s1.working.length) 0 =
      s2.working.getD (lcgNext s2.rng % s2.working.length) 0 := by
    rw [hposeq, hw]
  rw [← hjeq] at hc2
  set j := s1.working.getD (lcgNext s1.rng % s1.working.length) 0 with hjd
  obtain ⟨e_n, e_b, e_si, e_sm, e_k, e_i, e_m⟩ := bsim_parts (hb j)
  have hsl : (bAt s1.benchmarks j).states.length =
      (bAt s2.benchmarks j).states.length := length_eq_of_map_eq e_m
  by_cases hcur : (bAt s1.benchmarks j).istate <
      (bAt s1.benchmarks j).states.length
  · have hcur2 : (bAt s2.benchmarks j).istate <
        (bAt s2.benchmarks j).states.length := by omega
    have hjlen1 : j < s1.benchmarks.length := by
      by_contra hge
      have hd : bAt s1.benchmarks j = benchmark.dummy := by
        unfold bAt
        exact List.getD_eq_default _ _ (Nat.le_of_not_lt hge)
      rw [hd] at hcur
      exact absurd hcur (by decide)
    have hjlen2 : j < s2.benchmarks.length := by omega
    have hit : ((bAt s1.benchmarks j).states.getD
        (bAt s1.benchmarks j).istate default).iterations =
        ((bAt s2.benchmarks j).states.getD
          (bAt s2.benchmarks j).istate default).iterations := by
      rw [← e_i]
      exact getD_iterations_of_map_eq e_m _
    rw [hc1, if_pos hcur, hc2, if_pos hcur2]
    refine ⟨by rw [hrng], ?_, ?_, ?_, ?_⟩
    · show (if (bAt s1.benchmarks j).istate + 1 =
          (bAt s1.benchmarks j).states.length then
            s1.working.eraseIdx (lcgNext s1.rng % s1.working.length)
          else s1.working) = _
      by_cases hrem : (bAt s1.benchmarks j).istate + 1 =
          (bAt s1.benchmarks j).states.length
      · rw [if_pos hrem, if_pos (by omega), hposeq, hw]
      · rw [if_neg hrem, if_neg (by omega), hw]
    · show s1.trace ++ _ = s2.trace ++ _
      rw [htr, hit]
    · show (s1.benchmarks.set j _).length = (s2.benchmarks.set j _).length
      rw [List.length_set, List.length_set, hlen]
    · intro j'
      by_cases hj' : j' = j
      · subst hj'
        rw [bAt_set_self _ hjlen1, bAt_set_self _ hjlen2]
        unfold bsim
        simp only [List.map_set, Prod.mk.injEq]
        refine ⟨e_n, e_b, e_si, e_sm, e_k, by rw [e_i], ?_⟩
        rw [e_m, e_i]
        have hit2 : ((bAt s1.benchmarks j).states.getD
            (bAt s2.benchmarks j).istate default).iterations =
            ((bAt s2.benchmarks j).states.getD
              (bAt s2.benchmarks j).istate default).iterations := by
          rw [← e_i]
          exact getD_iterations_of_map_eq e_m _
        rw [hit2]
      · rw [bAt_set_ne _ hj', bAt_set_ne _ hj']
        exact hb j'
  · have hcur2 : ¬ (bAt s2.benchmarks j).istate <
        (bAt s2.benchmarks j).states.length := by omega
    rw [hc1, if_neg hcur, hc2, if_neg hcur2]
    exact ⟨by rw [hrng], by rw [hposeq, hw], htr, hlen, hb⟩

/-- The whole scheduling loop produces identical traces from two states
agreeing on engine, working set, trace, and duration-free benchmark
projections. -/
theorem schedLoop_sim :
    ∀ (fuel : Nat) (s1 s2 : sched), s1.rng = s2.rng →
      s1.working = s2.working → s1.trace = s2.trace →
      s1.benchmarks.length = s2.benchmarks.length →
      (∀ j, bsim (bAt s1.benchmarks j) = bsim (bAt s2.benchmarks j)) →
      (schedLoop fuel s1).trace = (schedLoop fuel s2).trace
  | 0, _, _, _, _, htr, _, _ => htr
  | fuel + 1, s1, s2, hrng, hw, htr, hlen, hb => by
      have hu1 : schedLoop (fuel + 1) s1 =
          if s1.working.isEmpty then s1
          else schedLoop fuel (schedStep s1) := rfl
      have hu2 : schedLoop (fuel + 1) s2 =
          if s2.working.isEmpty then s2
          else schedLoop fuel (schedStep s2) := rfl
      rw [hu1, hu2, hw]
      by_cases hempty : s2.working.isEmpty
      · rw [if_pos hempty, if_pos hempty]
        exact htr
      · rw [if_neg hempty, if_neg hempty]
        obtain ⟨a, b, c, d, e⟩ := schedStep_sim s1 s2 hrng hw htr hlen hb
        exact schedLoop_sim fuel _ _ a b c d e

/-- The execution trace does not depend on the clock value at which the
run starts (the clock only flows into recorded durations and start
stamps). -/
theorem run_benchmarks_trace_clock (dsi : List Int) (ds : Int)
    (reg : List suite) (seed : Int) (device : Nat) (c1 c2 : Nat) :
    (run_benchmarks dsi ds reg seed device c1).trace =
      (run_benchmarks dsi ds reg seed device c2).trace := by
  set rng0 := lcgInit (effectiveSeed seed device) with hrng0
  set p := initSuites dsi ds rng0 (reg.map resolveBaseline) with hp
  set flat := flatBenchmarks p.2 with hflat
  have h1 : (run_benchmarks dsi ds reg seed device c1).trace =
      (schedLoop (schedMeasure ⟨p.1, c1, flat, List.range flat.length, []⟩)
        ⟨p.1, c1, flat, List.range flat.length, []⟩).trace := rfl
  have h2 : (run_benchmarks dsi ds reg seed device c2).trace =
      (schedLoop (schedMeasure ⟨p.1, c2, flat, List.range flat.length, []⟩)
        ⟨p.1, c2, flat, List.range flat.length, []⟩).trace := rfl
  rw [h1, h2]
  have hms : schedMeasure ⟨p.1, c2, flat, List.range flat.length, []⟩ =
      schedMeasure ⟨p.1, c1, flat, List.range flat.length, []⟩ := rfl
  rw [hms]
  exact schedLoop_sim _ _ _ rfl rfl rfl rfl (fun j => rfl)

/-- Claim C6: two `run_benchmarks` invocations with the same explicit
seed (any value other than the sentinel `-1`) over identical registry
contents execute the same sequence of (benchmark, target_iterations)
units, whatever the device draws and starting clock values are. -/
theorem same_seed_same_interleaving (dsi : List Int) (ds : Int)
    (reg : List suite) (seed : Int) (hseed : seed ≠ -1)
    (d1 d2 c1 c2 : Nat) :
    (run_benchmarks dsi ds reg seed d1 c1).trace =
      (run_benchmarks dsi ds reg seed d2 c2).trace := by
  have hdev : run_benchmarks dsi ds reg seed d1 c2 =
      run_benchmarks dsi ds reg seed d2 c2 := by
    unfold run_benchmarks
    rw [show effectiveSeed seed d1 = effectiveSeed seed d2 by
      simp [effectiveSeed, hseed]]
  calc (run_benchmarks dsi ds reg seed d1 c1).trace
      = (run_benchmarks dsi ds reg seed d1 c2).trace :=
        run_benchmarks_trace_clock dsi ds reg seed d1 c1 c2
    _ = (run_benchmarks dsi ds reg seed d2 c2).trace := by rw [hdev]

/-- Witness for C6: seed 42 on the §8 registry under different device
draws and start clocks yields the same unit sequence. -/
theorem same_seed_same_interleaving_witness :
    (42 : Int) ≠ -1 ∧
      (run_benchmarks default_state_iterations default_samples regAB 42 3
        0).trace =
        (run_benchmarks default_state_iterations default_samples regAB 42 4
          5).trace :=
  ⟨by decide, same_seed_same_interleaving default_state_iterations
    default_samples regAB 42 (by decide) 3 4 0 5⟩

/-! ### Claim C7: randomized placement within the benchmark's own queue -/

/-- The engine reaches every residue needed: for any target output `o`
strictly between 0 and the modulus there is an engine state mapped to it
by one step. -/
theorem lcgNext_surj (o : Nat) (h1 : 0 < o) (h2 : o < lcgM) :
    ∃ g, lcgNext g = o := by
  refine ⟨o * 1899818559 % lcgM, ?_⟩
  unfold lcgNext
  have e1 : 48271 * (o * 1899818559 % lcgM) ≡
      (48271 * 1899818559) * o [MOD lcgM] := by
    calc 48271 * (o * 1899818559 % lcgM)
        ≡ 48271 * (o * 1899818559) [MOD lcgM] :=
          (Nat.mod_modEq _ _).mul_left 48271
      _ = (48271 * 1899818559) * o := by ring
  have e2 : (48271 * 1899818559) * o ≡ 1 * o [MOD lcgM] :=
    Nat.ModEq.mul_right o
      (show (48271 * 1899818559) % lcgM = 1 % lcgM by decide)
  have e3 := e1.trans e2
  show 48271 * (o * 1899818559 % lcgM) % lcgM = o
  calc 48271 * (o * 1899818559 % lcgM) % lcgM
      = 1 * o % lcgM := e3
    _ = o := by
        rw [Nat.one_mul]
        exact Nat.mod_eq_of_lt h2

/-- Every position of the benchmark's own pending sequence (0 up to and
including its current size) is reachable by the seeded generator's next
draw, as long as the sequence is shorter than the generator modulus. -/
theorem insert_pos_surjective (len : Nat) (hlen : len + 2 ≤ lcgM)
    (p : Nat) (hp : p ≤ len) : ∃ g, lcgNext g % (len + 1) = p := by
  rcases Nat.eq_zero_or_pos p with hp0 | hppos
  · obtain ⟨g, hg⟩ := lcgNext_surj (len + 1) (by omega) (by omega)
    refine ⟨g, ?_⟩
    rw [hg, hp0, Nat.mod_self]
  · obtain ⟨g, hg⟩ := lcgNext_surj p hppos (by omega)
    refine ⟨g, ?_⟩
    rw [hg]
    exact Nat.mod_eq_of_lt (by omega)

/-- Claim C7: during expansion each newly generated state is inserted
into the benchmark's own pending sequence at position
`rnd() % (size + 1)` — a position drawn from the seeded generator lying
in 0..size inclusive, with every such position reachable — and the
expansion of one benchmark never touches another benchmark's sequence:
benchmark `j`'s expanded record is a function of its own record (and the
threaded engine state) alone. -/
theorem randomized_insertion (rng : Nat) (sts : List state) (iters : Int) :
    (insertSample rng sts iters).2 =
        sts.insertIdx (lcgNext rng % (sts.length + 1)) (state.fresh iters) ∧
      lcgNext rng % (sts.length + 1) ≤ sts.length ∧
      (sts.length + 2 ≤ lcgM →
        ∀ p ≤ sts.length, ∃ g, lcgNext g % (sts.length + 1) = p) ∧
      ∀ (dsi : List Int) (ds : Int) (r : Nat) (bs : List benchmark)
        (j : Nat), j < bs.length →
        ∃ r2, bAt (initBenchmarks dsi ds r bs).2 j =
          (initBenchmark dsi ds r2 (bAt bs j)).2 := by
  refine ⟨rfl, insertSample_pos_le rng sts, ?_, ?_⟩
  · intro hlen p hp
    exact insert_pos_surjective sts.length hlen p hp
  · intro dsi ds r bs j hj
    exact initBenchmarks_getD dsi ds r bs j hj

/-- Witness for C7: with three pending states, position 2 (and indeed
any position 0..3) is reachable by a generator draw, and the frame
property holds on a concrete two-benchmark list. -/
theorem randomized_insertion_witness :
    ((state.fresh 1 :: state.fresh 2 :: [state.fresh 3]).length + 2 ≤ lcgM) ∧
      (∃ g, lcgNext g %
        ((state.fresh 1 :: state.fresh 2 :: [state.fresh 3]).length + 1) = 2) :=
  ⟨by decide, (randomized_insertion 5 (state.fresh 1 :: state.fresh 2 ::
      [state.fresh 3]) 7).2.2.1 (by decide) 2 (by decide)⟩

end Picobench
